/-
  Verification of the zDAW clip-launching and time-stretching core.

  The source is TypeScript; numbers are embedded as exact rationals
  (JavaScript floats replaced by the field of rationals), Float32Array
  buffers as arrays of rationals, JS Map objects as association lists
  with JS Map insertion-order semantics, and Math.random as an explicit
  stream of values threaded through the state.
-/
import Mathlib

set_option maxHeartbeats 1000000
set_option linter.unusedVariables false

namespace ZDaw

/-- Beat-valued time, exact rational embedding of the TS number type. -/
abbrev Beats := ℚ

/-- Second-valued time, exact rational embedding of the TS number type. -/
abbrev Seconds := ℚ

/-- beatsToSeconds from the types module: (beats / bpm) * 60. -/
def beatsToSeconds (beats : Beats) (bpm : ℚ) : Seconds :=
  beats / bpm * 60

/-- secondsToBeats from the types module: (seconds / 60) * bpm. -/
def secondsToBeats (seconds : Seconds) (bpm : ℚ) : Beats :=
  seconds / 60 * bpm

/-- LaunchQuantization union type from the types module. -/
inductive LaunchQuantization
  | none
  | q1_32
  | q1_16
  | q1_8
  | q1_4
  | q1_2
  | oneBar
  | twoBars
  | fourBars
  | eightBars
  | global
  deriving DecidableEq, Repr

/-- launchQuantizationToBeats from the types module; the bpm argument is
unused in the source as well. -/
def launchQuantizationToBeats (q : LaunchQuantization) (bpm : ℚ) : Beats :=
  match q with
  | .none => 0
  | .q1_32 => 1/8
  | .q1_16 => 1/4
  | .q1_8 => 1/2
  | .q1_4 => 1
  | .q1_2 => 2
  | .oneBar => 4
  | .twoBars => 8
  | .fourBars => 16
  | .eightBars => 32
  | .global => 4

/-- getNextQuantizedBeat from the types module: ceiling to the next
multiple of the quantization size, identity for size 0. -/
def getNextQuantizedBeat (currentBeat : Beats) (quantization : LaunchQuantization) (bpm : ℚ) : Beats :=
  let q := launchQuantizationToBeats quantization bpm
  if q = 0 then currentBeat else (⌈currentBeat / q⌉ : ℚ) * q

-- ===========================================================================
-- WarpEngine (src/src/audio/WarpEngine.ts)
-- ===========================================================================

/-- WarpMode union type from the types module. -/
inductive WarpMode
  | beats
  | tones
  | texture
  | complex
  | repitch
  | off
  deriving DecidableEq, Repr

/-- WarpMarker from the types module. -/
structure WarpMarker where
  id : String
  sampleTime : Seconds
  beatTime : Beats
  deriving DecidableEq, Repr

/-- WarpSettings from the types module; grainSize is in milliseconds. -/
structure WarpSettings where
  enabled : Bool
  mode : WarpMode
  originalBPM : ℚ
  markers : List WarpMarker
  transientSensitivity : ℚ
  grainSize : ℚ
  preservePitch : Bool
  deriving DecidableEq, Repr

/-- Web Audio AudioBuffer: a sample rate and one Float32Array per channel. -/
structure AudioBuffer where
  sampleRate : ℚ
  channels : List (Array ℚ)
  deriving DecidableEq, Repr

/-- AudioBuffer.length (frame count of the channel data). -/
def AudioBuffer.length (b : AudioBuffer) : ℕ :=
  (b.channels.headD #[]).size

/-- AudioBuffer.duration = length / sampleRate. -/
def AudioBuffer.duration (b : AudioBuffer) : Seconds :=
  (b.length : ℚ) / b.sampleRate

/-- GrainWindow record from WarpEngine.ts. -/
structure GrainWindow where
  data : Array ℚ
  size : ℕ
  deriving DecidableEq, Repr

/-- The engine: source buffer, settings and the precomputed window table
(the table contents are construction-time state; the Hann cosine values
are carried as data since the claims hold for every table). -/
structure WarpEngine where
  sourceBuffer : Option AudioBuffer
  settings : WarpSettings
  grainWindows : List (ℕ × GrainWindow)
  deriving Repr

/-- Insertion sort used to model sorting the window-size keys ascending. -/
def insertAsc (x : ℕ) : List ℕ → List ℕ
  | [] => [x]
  | y :: ys => if x ≤ y then x :: y :: ys else y :: insertAsc x ys

/-- Sort a list of sizes ascending (models Array.sort((a,b) => a-b)). -/
def sortAsc : List ℕ → List ℕ
  | [] => []
  | x :: xs => insertAsc x (sortAsc xs)

/-- getGrainWindow: pick the precomputed window whose size is closest to
the request, scanning the sorted sizes and keeping a strictly closer one. -/
def getGrainWindow (e : WarpEngine) (size : ℕ) : GrainWindow :=
  let sizes := sortAsc (e.grainWindows.map Prod.fst)
  let closest := sizes.foldl
    (fun closest s =>
      if ((s : ℤ) - size).natAbs < ((closest : ℤ) - size).natAbs then s else closest)
    (sizes.headD 0)
  (((e.grainWindows.find? (fun p => p.1 = closest)).map Prod.snd).getD ⟨#[], 0⟩)

/-- Read a Float32Array at a possibly negative index; in-range reads match
the source, out-of-range reads return 0 (the source never makes one on the
paths the claims exercise). -/
def bufRead (a : Array ℚ) (i : ℤ) : ℚ :=
  if 0 ≤ i then a.getD i.toNat 0 else 0

/-- Write a Float32Array slot; out-of-range writes are discarded exactly as
Float32Array indexed assignment discards them. -/
def bufWrite (a : Array ℚ) (i : ℤ) (v : ℚ) : Array ℚ :=
  if 0 ≤ i then a.setD i.toNat v else a

/-- Grain size in samples: Math.floor((grainSizeMs / 1000) * 44100). -/
def grainSizeSamples (settings : WarpSettings) : ℕ :=
  (⌊settings.grainSize / 1000 * 44100⌋).toNat

/-- Peak absolute value of a list, as the normalization loops compute it. -/
def peakAbsL (l : List ℚ) : ℚ :=
  l.foldl (fun m v => max m |v|) 0

/-- Peak absolute value of a buffer. -/
def peakAbs (a : Array ℚ) : ℚ :=
  peakAbsL a.toList

/-- Trailing normalization of granularStretch and textureGranularStretch:
if any sample exceeds 1 in magnitude, divide every sample by the peak. -/
def normalizeIfClipping (a : Array ℚ) : Array ℚ :=
  let maxVal := peakAbs a
  if 1 < maxVal then a.map (fun v => v / maxVal) else a

/-- Trailing normalization of phaseVocoderStretch: when the peak exceeds
0.01, scale the whole buffer up or down to peak 1. -/
def normalizeToPeak (a : Array ℚ) : Array ℚ :=
  let maxVal := peakAbs a
  if 1/100 < maxVal then a.map (fun v => v * (1 / maxVal)) else a

/-- One grain of the granularStretch overlap-add: window the input grain
(read position clamped to the last input sample) and add it into the
output, stopping at the end of the output buffer. -/
def granularAddGrain (input : Array ℚ) (window : GrainWindow) (grainSize : ℕ)
    (inStart outputPos : ℤ) (output : Array ℚ) : Array ℚ :=
  (List.range grainSize).foldl
    (fun out i =>
      if outputPos + i < (out.size : ℤ) then
        let inIdx := min (inStart + i) ((input.size : ℤ) - 1)
        let winIdx := (⌊((i : ℚ) / grainSize) * window.size⌋).toNat
        bufWrite out (outputPos + i)
          (bufRead out (outputPos + i) + bufRead input inIdx * window.data.getD winIdx 0)
      else out)
    output

/-- The granularStretch while loop, with fuel to make it total (the source
loop can only fail to terminate when both hops are zero, where the source
itself would spin forever). -/
def granularLoop (input : Array ℚ) (window : GrainWindow) (grainSize : ℕ)
    (hopIn hopOut : ℤ) : ℕ → ℤ → ℤ → Array ℚ → Array ℚ
  | 0, _, _, output => output
  | fuel + 1, inputPos, outputPos, output =>
    if outputPos < (output.size : ℤ) - grainSize then
      let inStart := inputPos
      if (input.size : ℤ) - grainSize ≤ inStart then output
      else
        let output := granularAddGrain input window grainSize inStart outputPos output
        granularLoop input window grainSize hopIn hopOut fuel
          (inputPos + hopIn) (outputPos + hopOut) output
    else output

/-- granularStretch synthesis before its normalization step. -/
def granularRaw (e : WarpEngine) (input : Array ℚ) (outputLen : ℕ) (ratio : ℚ) : Array ℚ :=
  let grainSize := grainSizeSamples e.settings
  let hopIn : ℤ := ⌊(grainSize : ℚ) * (1/4)⌋
  let hopOut : ℤ := ⌊(hopIn : ℚ) * ratio⌋
  let window := getGrainWindow e grainSize
  let output : Array ℚ := Array.mkArray outputLen 0
  granularLoop input window grainSize hopIn hopOut (input.size + outputLen + 1) 0 0 output

/-- granularStretch: overlap-add synthesis followed by clip normalization. -/
def granularStretch (e : WarpEngine) (input : Array ℚ) (outputLen : ℕ) (ratio : ℚ) : Array ℚ :=
  normalizeIfClipping (granularRaw e input outputLen ratio)

/-- One frame of the phaseVocoderStretch overlap-add (no read clamping:
the source bounds check guarantees the frame fits in the input). -/
def pvAddFrame (input : Array ℚ) (window : GrainWindow) (fftSize : ℕ)
    (inStart outputPos : ℤ) (output : Array ℚ) : Array ℚ :=
  (List.range fftSize).foldl
    (fun out i =>
      if outputPos + i < (out.size : ℤ) then
        let winIdx := (⌊((i : ℚ) / fftSize) * window.size⌋).toNat
        bufWrite out (outputPos + i)
          (bufRead out (outputPos + i) + bufRead input (inStart + i) * window.data.getD winIdx 0)
      else out)
    output

/-- The phaseVocoderStretch while loop, fuelled like granularLoop. -/
def pvLoop (input : Array ℚ) (window : GrainWindow) (fftSize : ℕ)
    (hopIn hopOut : ℤ) : ℕ → ℤ → ℤ → Array ℚ → Array ℚ
  | 0, _, _, output => output
  | fuel + 1, inputPos, outputPos, output =>
    if outputPos < (output.size : ℤ) - fftSize then
      let inStart := inputPos
      if (input.size : ℤ) - fftSize ≤ inStart then output
      else
        let output := pvAddFrame input window fftSize inStart outputPos output
        pvLoop input window fftSize hopIn hopOut fuel
          (inputPos + hopIn) (outputPos + hopOut) output
    else output

/-- phaseVocoderStretch: frame 2048, input hop 512, output hop scaled by
the ratio, then peak normalization. -/
def phaseVocoderStretch (e : WarpEngine) (input : Array ℚ) (outputLen : ℕ) (ratio : ℚ) : Array ℚ :=
  let fftSize : ℕ := 2048
  let hopIn : ℤ := 512
  let hopOut : ℤ := ⌊(hopIn : ℚ) * ratio⌋
  let window := getGrainWindow e fftSize
  let output : Array ℚ := Array.mkArray outputLen 0
  normalizeToPeak (pvLoop input window fftSize hopIn hopOut (input.size + outputLen + 1) 0 0 output)

/-- Truncation toward zero, as JS number-to-integer conversion behaves in
the remainder operator. -/
def jsTrunc (x : ℚ) : ℤ :=
  if 0 ≤ x then ⌊x⌋ else -⌊-x⌋

/-- The JS remainder operator a % b (sign of the dividend); b = 0, where JS
yields NaN, is mapped to 0 and never reached on the claim paths. -/
def jsMod (a b : ℚ) : ℚ :=
  if b = 0 then 0 else a - b * (jsTrunc (a / b) : ℚ)

/-- One grain of textureGranularStretch with its amplitude variation. -/
def textureAddGrain (input : Array ℚ) (window : GrainWindow) (grainSize : ℕ)
    (inStart outputPos : ℤ) (ampVar : ℚ) (output : Array ℚ) : Array ℚ :=
  (List.range grainSize).foldl
    (fun out i =>
      if outputPos + i < (out.size : ℤ) then
        let winIdx := (⌊((i : ℚ) / grainSize) * window.size⌋).toNat
        bufWrite out (outputPos + i)
          (bufRead out (outputPos + i) + bufRead input (inStart + i) * window.data.getD winIdx 0 * ampVar)
      else out)
    output

/-- The textureGranularStretch while loop. Math.random is the stream rng,
read at the running index; the result carries the next unused index. -/
def textureLoop (input : Array ℚ) (window : GrainWindow) (grainSize : ℕ)
    (hopOut : ℤ) (rng : ℕ → ℚ) : ℕ → ℤ → ℕ → Array ℚ → Array ℚ × ℕ
  | 0, _, k, output => (output, k)
  | fuel + 1, outputPos, k, output =>
    if outputPos < (output.size : ℤ) - grainSize then
      let inputLength : ℤ := input.size
      let jitter := (rng k - 1/2) * grainSize * 2
      let inStart : ℤ :=
        ⌊jsMod (((outputPos : ℚ) / (output.size : ℚ)) * inputLength + jitter)
            ((inputLength : ℚ) - grainSize)⌋
      if inStart < 0 ∨ inputLength - grainSize ≤ inStart then
        textureLoop input window grainSize hopOut rng fuel (outputPos + hopOut) (k + 1) output
      else
        let ampVar := 4/5 + rng (k + 1) * (2/5)
        let output := textureAddGrain input window grainSize inStart outputPos ampVar output
        textureLoop input window grainSize hopOut rng fuel (outputPos + hopOut) (k + 2) output
    else (output, k)

/-- textureGranularStretch synthesis before its normalization step. -/
def textureRaw (e : WarpEngine) (input : Array ℚ) (outputLen : ℕ) (ratio : ℚ)
    (rng : ℕ → ℚ) (k : ℕ) : Array ℚ × ℕ :=
  let grainSize := grainSizeSamples e.settings
  let hopIn : ℤ := ⌊(grainSize : ℚ) * (1/4)⌋
  let hopOut : ℤ := ⌊(hopIn : ℚ) * ratio⌋
  let window := getGrainWindow e grainSize
  let output : Array ℚ := Array.mkArray outputLen 0
  textureLoop input window grainSize hopOut rng (input.size + outputLen + 1) 0 k output

/-- textureGranularStretch: randomized overlap-add then clip normalization. -/
def textureGranularStretch (e : WarpEngine) (input : Array ℚ) (outputLen : ℕ) (ratio : ℚ)
    (rng : ℕ → ℚ) (k : ℕ) : Array ℚ × ℕ :=
  let (raw, kk) := textureRaw e input outputLen ratio rng k
  (normalizeIfClipping raw, kk)

/-- context.createBuffer: fresh zero-filled channels. -/
def createBuffer (channels : ℕ) (len : ℕ) (sampleRate : ℚ) : AudioBuffer :=
  ⟨sampleRate, List.replicate channels (Array.mkArray len 0)⟩

/-- Float32Array.slice with the integer bounds the beats mode computes. -/
def arraySlice (a : Array ℚ) (s e : ℤ) : Array ℚ :=
  a.extract s.toNat e.toNat

/-- Consecutive marker pairs, as the beats-mode segment loop walks them. -/
def markerPairs : List WarpMarker → List (WarpMarker × WarpMarker)
  | m1 :: m2 :: rest => (m1, m2) :: markerPairs (m2 :: rest)
  | _ => []

/-- processBeatsMode: per channel, either a single granular stretch when
fewer than two markers exist, or an independent granular stretch of every
marker-to-marker segment copied to its mapped output offset. -/
def processBeatsMode (e : WarpEngine) (src : AudioBuffer) (targetDuration : Seconds)
    (stretchRatio : ℚ) : AudioBuffer :=
  let sampleRate := src.sampleRate
  let outputLength := (⌊targetDuration * sampleRate⌋).toNat
  let markers := e.settings.markers
  ⟨sampleRate,
    src.channels.map (fun inputData =>
      if markers.length < 2 then
        granularStretch e inputData outputLength stretchRatio
      else
        let seed : Array ℚ × ℤ := (Array.mkArray outputLength 0, 0)
        ((markerPairs markers).foldl
          (fun acc pair =>
            let startMarker := pair.1
            let endMarker := pair.2
            let inputStart : ℤ := ⌊startMarker.sampleTime * sampleRate⌋
            let inputEnd : ℤ := ⌊endMarker.sampleTime * sampleRate⌋
            let inputLength : ℤ := inputEnd - inputStart
            let targetStart := beatsToSeconds (startMarker.beatTime * stretchRatio) e.settings.originalBPM
            let targetEnd := beatsToSeconds (endMarker.beatTime * stretchRatio) e.settings.originalBPM
            let targetLength : ℤ := ⌊(targetEnd - targetStart) * sampleRate⌋
            let segmentIn := arraySlice inputData inputStart inputEnd
            let segmentOut := granularStretch e segmentIn targetLength.toNat
              ((targetLength : ℚ) / (inputLength : ℚ))
            let out := (List.range targetLength.toNat).foldl
              (fun o (j : ℕ) =>
                if acc.2 + (j : ℤ) < (outputLength : ℤ) then
                  bufWrite o (acc.2 + (j : ℤ)) (segmentOut.getD j 0)
                else o)
              acc.1
            (out, acc.2 + targetLength))
          seed).1)⟩

/-- processTonesMode: phase-vocoder stretch of every channel. -/
def processTonesMode (e : WarpEngine) (src : AudioBuffer) (targetDuration : Seconds)
    (stretchRatio : ℚ) : AudioBuffer :=
  let sampleRate := src.sampleRate
  let outputLength := (⌊targetDuration * sampleRate⌋).toNat
  ⟨sampleRate,
    src.channels.map (fun inputData => phaseVocoderStretch e inputData outputLength stretchRatio)⟩

/-- processTextureMode: texture stretch of every channel, threading the
random stream across channels in order. -/
def processTextureMode (e : WarpEngine) (src : AudioBuffer) (targetDuration : Seconds)
    (stretchRatio : ℚ) (rng : ℕ → ℚ) : AudioBuffer :=
  let sampleRate := src.sampleRate
  let outputLength := (⌊targetDuration * sampleRate⌋).toNat
  let seed : List (Array ℚ) × ℕ := ([], 0)
  ⟨sampleRate,
    (src.channels.foldl
      (fun acc inputData =>
        let r := textureGranularStretch e inputData outputLength stretchRatio rng acc.2
        (acc.1 ++ [r.1], r.2))
      seed).1⟩

/-- processComplexMode delegates to the tones algorithm, verbatim. -/
def processComplexMode (e : WarpEngine) (src : AudioBuffer) (targetDuration : Seconds)
    (stretchRatio : ℚ) : AudioBuffer :=
  processTonesMode e src targetDuration stretchRatio

/-- processRepitchMode returns the source buffer unchanged. -/
def processRepitchMode (e : WarpEngine) (src : AudioBuffer) (targetDuration : Seconds)
    (stretchRatio : ℚ) : AudioBuffer :=
  src

/-- TimeStretchEngine.process: null without a source buffer, the source
buffer itself when warping is disabled, otherwise dispatch on the mode. -/
def process (e : WarpEngine) (rng : ℕ → ℚ) (targetDuration : Seconds) : Option AudioBuffer :=
  match e.sourceBuffer with
  | Option.none => Option.none
  | some src =>
    if e.settings.enabled = false then some src
    else
      let sourceDuration := src.duration
      let stretchRatio := targetDuration / sourceDuration
      match e.settings.mode with
      | .beats => some (processBeatsMode e src targetDuration stretchRatio)
      | .tones => some (processTonesMode e src targetDuration stretchRatio)
      | .texture => some (processTextureMode e src targetDuration stretchRatio rng)
      | .complex => some (processComplexMode e src targetDuration stretchRatio)
      | .repitch => some (processRepitchMode e src targetDuration stretchRatio)
      | .off => some src

/-- sampleToBeat marker scan: the first bracketing pair interpolates. -/
def sampleToBeatLoop : List WarpMarker → Seconds → Option Beats
  | m1 :: m2 :: rest, sampleTime =>
    if m1.sampleTime ≤ sampleTime ∧ sampleTime ≤ m2.sampleTime then
      let sampleRange := m2.sampleTime - m1.sampleTime
      let beatRange := m2.beatTime - m1.beatTime
      let t := (sampleTime - m1.sampleTime) / sampleRange
      some (m1.beatTime + t * beatRange)
    else sampleToBeatLoop (m2 :: rest) sampleTime
  | _, _ => Option.none

/-- sampleToBeat: linear fallback with fewer than two markers, otherwise
piecewise interpolation with BPM-based extrapolation past the last marker. -/
def sampleToBeat (e : WarpEngine) (sampleTime : Seconds) : Beats :=
  let markers := e.settings.markers
  if markers.length < 2 then secondsToBeats sampleTime e.settings.originalBPM
  else
    match sampleToBeatLoop markers sampleTime with
    | some b => b
    | Option.none =>
      let last := markers.getLastD ⟨"", 0, 0⟩
      last.beatTime + secondsToBeats (sampleTime - last.sampleTime) e.settings.originalBPM

/-- beatToSample marker scan: the first bracketing pair interpolates. -/
def beatToSampleLoop : List WarpMarker → Beats → Option Seconds
  | m1 :: m2 :: rest, beatTime =>
    if m1.beatTime ≤ beatTime ∧ beatTime ≤ m2.beatTime then
      let beatRange := m2.beatTime - m1.beatTime
      let sampleRange := m2.sampleTime - m1.sampleTime
      let t := (beatTime - m1.beatTime) / beatRange
      some (m1.sampleTime + t * sampleRange)
    else beatToSampleLoop (m2 :: rest) beatTime
  | _, _ => Option.none

/-- beatToSample: inverse lookup with the same structure as sampleToBeat. -/
def beatToSample (e : WarpEngine) (beatTime : Beats) : Seconds :=
  let markers := e.settings.markers
  if markers.length < 2 then beatsToSeconds beatTime e.settings.originalBPM
  else
    match beatToSampleLoop markers beatTime with
    | some s => s
    | Option.none =>
      let last := markers.getLastD ⟨"", 0, 0⟩
      last.sampleTime + beatsToSeconds (beatTime - last.beatTime) e.settings.originalBPM

/-- Engine fixture with the marker set of testable property 6: markers at
sample seconds 0, 1, 2 mapped to beats 0, 2, 4.5. -/
def c7Engine : WarpEngine :=
  { sourceBuffer := Option.none
    settings :=
      { enabled := true
        mode := .beats
        originalBPM := 120
        markers := [⟨"m0", 0, 0⟩, ⟨"m1", 1, 2⟩, ⟨"m2", 2, 9/2⟩]
        transientSensitivity := 1/2
        grainSize := 50
        preservePitch := true }
    grainWindows := [] }

-- ===========================================================================
-- ClipLauncher (the session clip scheduling engine)
-- ===========================================================================

/-- ClipState union type from the types module. -/
inductive ClipState
  | stopped
  | playing
  | recording
  | triggered
  | stopping
  deriving DecidableEq, Repr

/-- LegatoMode union type from the types module. -/
inductive LegatoMode
  | off
  | legato
  | immediate
  deriving DecidableEq, Repr

/-- FollowActionType union type from the types module. -/
inductive FollowActionType
  | none
  | stop
  | playAgain
  | previous
  | next
  | first
  | last
  | any
  | other
  | jump
  deriving DecidableEq, Repr

/-- FollowAction from the types module. -/
structure FollowAction where
  action : FollowActionType
  chance : ℚ
  jumpTarget : Option String
  deriving DecidableEq, Repr

/-- FollowActionPair from the types module. -/
structure FollowActionPair where
  actionA : FollowAction
  actionB : FollowAction
  time : Beats
  linked : Bool
  deriving DecidableEq, Repr

/-- MIDINoteData fields the launcher consumes. -/
structure MIDINoteData where
  id : String
  note : ℕ
  velocity : ℕ
  start : Beats
  duration : Beats
  deriving DecidableEq, Repr

/-- AudioRegion fields the launcher consumes. -/
structure AudioRegion where
  id : String
  sampleId : String
  start : Beats
  duration : Beats
  offset : Seconds
  gain : ℚ
  deriving DecidableEq, Repr

/-- The ClipBase fields the launcher reads; optional TS fields are Option. -/
structure ClipBase where
  id : String
  duration : Beats
  loopEnabled : Option Bool
  loopStart : Option Beats
  loopEnd : Option Beats
  legato : Option LegatoMode
  followAction : Option FollowActionPair
  deriving DecidableEq, Repr

/-- The Clip union: audio clips carry regions, MIDI clips carry notes. -/
inductive Clip
  | audio (base : ClipBase) (regions : List AudioRegion)
  | midi (base : ClipBase) (notes : List MIDINoteData)
  deriving DecidableEq, Repr

/-- Shared base fields of either clip variant. -/
def Clip.base : Clip → ClipBase
  | .audio b _ => b
  | .midi b _ => b

/-- ScheduledMIDIEvent from ClipLauncher. -/
structure ScheduledMIDIEvent where
  noteId : String
  note : ℕ
  velocity : ℕ
  startTime : ℚ
  endTime : ℚ
  triggered : Bool
  deriving DecidableEq, Repr

/-- The scheduling request handed to an AudioBufferSourceNode when an
audio region starts (the renderer itself is an external collaborator). -/
structure AudioSourceHandle where
  sampleId : String
  startTime : ℚ
  offset : Seconds
  gain : ℚ
  deriving DecidableEq, Repr

/-- ScheduledClip from ClipLauncher. -/
structure ScheduledClip where
  id : ℕ
  trackId : String
  slotIndex : ℕ
  clip : Clip
  state : ClipState
  launchTime : Beats
  stopTime : Option Beats
  loopCount : ℕ
  sources : List AudioSourceHandle
  midiEvents : List ScheduledMIDIEvent
  deriving DecidableEq, Repr

/-- ClipLauncherEvent union from ClipLauncher. -/
inductive ClipLauncherEvent
  | clipStarted (trackId : String) (slotIndex : ℕ)
  | clipStopped (trackId : String) (slotIndex : ℕ)
  | clipLooped (trackId : String) (slotIndex : ℕ) (loopCount : ℕ)
  | followActionFired (trackId : String) (slotIndex : ℕ) (action : FollowAction)
  deriving DecidableEq, Repr

/-- JS Map get on a trackId-keyed association list. -/
def mapGet (m : List (String × ℕ)) (k : String) : Option ℕ :=
  (m.find? (fun p => p.1 = k)).map Prod.snd

/-- JS Map set: update in place when the key exists, append otherwise. -/
def mapSet (m : List (String × ℕ)) (k : String) (v : ℕ) : List (String × ℕ) :=
  if m.any (fun p => p.1 = k) then m.map (fun p => if p.1 = k then (k, v) else p)
  else m ++ [(k, v)]

/-- JS Map delete. -/
def mapDelete (m : List (String × ℕ)) (k : String) : List (String × ℕ) :=
  m.filter (fun p => ¬ p.1 = k)

/-- Object heap for ScheduledClips: the TS maps alias one mutable object,
so clips live in an id-keyed store and the role maps hold ids. -/
def storeGet (st : List (ℕ × ScheduledClip)) (i : ℕ) : Option ScheduledClip :=
  (st.find? (fun p => p.1 = i)).map Prod.snd

/-- Insert a fresh clip object into the store (update if the id exists). -/
def storeSet (st : List (ℕ × ScheduledClip)) (i : ℕ) (c : ScheduledClip) :
    List (ℕ × ScheduledClip) :=
  if st.any (fun p => p.1 = i) then st.map (fun p => if p.1 = i then (i, c) else p)
  else st ++ [(i, c)]

/-- Mutate the clip object with the given id in place. -/
def storeUpdate (st : List (ℕ × ScheduledClip)) (i : ℕ)
    (f : ScheduledClip → ScheduledClip) : List (ℕ × ScheduledClip) :=
  st.map (fun p => if p.1 = i then (p.1, f p.2) else p)

/-- The launcher state: the three role maps of ClipLauncherState plus the
scalar fields of the ClipLauncher class. The transport clock is the pair
ctxTime/startTime (AudioContext.currentTime and the time transport
started), position is the beat position at transport start, and the
Math.random stream rng is consumed at index rngIdx. Emitted events and
MIDI output calls are logged in order. -/
structure LauncherState where
  store : List (ℕ × ScheduledClip)
  playing : List (String × ℕ)
  triggered : List (String × ℕ)
  stopping : List (String × ℕ)
  bpm : ℚ
  globalQuantization : LaunchQuantization
  position : Beats
  startTime : ℚ
  ctxTime : ℚ
  nextId : ℕ
  sampleIds : List String
  events : List ClipLauncherEvent
  midiOut : List (ℕ × ℕ × ℕ)
  rng : ℕ → ℚ
  rngIdx : ℕ

/-- getPosition while the transport plays: the start position plus the
beats elapsed since the transport started. -/
def getPos (s : LauncherState) : Beats :=
  s.position + secondsToBeats (s.ctxTime - s.startTime) s.bpm

/-- The ClipLauncher constructor state with the given configuration
(setBPM / setGlobalQuantization applied once, random stream fixed). -/
def initialState (bpm : ℚ) (gq : LaunchQuantization) (rng : ℕ → ℚ) : LauncherState :=
  { store := []
    playing := []
    triggered := []
    stopping := []
    bpm := bpm
    globalQuantization := gq
    position := 0
    startTime := 0
    ctxTime := 0
    nextId := 0
    sampleIds := []
    events := []
    midiOut := []
    rng := rng
    rngIdx := 0 }

/-- The wall clock advancing: AudioContext.currentTime grows. -/
def advanceTime (s : LauncherState) (t : ℚ) : LauncherState :=
  { s with ctxTime := t }

/-- start(position): reset the beat origin to the current context time. -/
def startTransport (s : LauncherState) (pos : Beats) : LauncherState :=
  { s with position := pos, startTime := s.ctxTime }

/-- loadSample: remember that a sample id resolves in the cache. -/
def loadSample (s : LauncherState) (sid : String) : LauncherState :=
  { s with sampleIds := s.sampleIds ++ [sid] }

/-- Append an event to every subscriber, in order. -/
def emit (s : LauncherState) (ev : ClipLauncherEvent) : LauncherState :=
  { s with events := s.events ++ [ev] }

/-- startAudioClip: schedule one source per region whose sample resolves,
silently skipping missing samples. -/
def startAudioClip (s : LauncherState) (cid : ℕ) (regions : List AudioRegion) : LauncherState :=
  let now := s.ctxTime
  regions.foldl
    (fun st region =>
      if st.sampleIds.contains region.sampleId then
        let handle : AudioSourceHandle :=
          { sampleId := region.sampleId
            startTime := now + beatsToSeconds region.start st.bpm
            offset := region.offset
            gain := region.gain }
        { st with store := (storeUpdate st.store cid
            (fun c => { c with sources := c.sources ++ [handle] })) }
      else st)
    s

/-- Build the ScheduledMIDIEvent list for a note list at context time now. -/
def scheduleNotes (notes : List MIDINoteData) (now : ℚ) (bpm : ℚ) : List ScheduledMIDIEvent :=
  notes.map (fun note =>
    { noteId := note.id
      note := note.note
      velocity := note.velocity
      startTime := now + beatsToSeconds note.start bpm
      endTime := now + beatsToSeconds note.start bpm + beatsToSeconds note.duration bpm
      triggered := false })

/-- startMIDIClip: schedule all notes as untriggered on/off pairs. -/
def startMIDIClip (s : LauncherState) (cid : ℕ) (notes : List MIDINoteData) : LauncherState :=
  { s with store := (storeUpdate s.store cid
      (fun c => { c with midiEvents := c.midiEvents ++ scheduleNotes notes s.ctxTime s.bpm })) }

/-- startClip: flip the clip to playing, claim the playing role for its
track, dispatch audio or MIDI, and emit clip-started. -/
def startClip (s : LauncherState) (cid : ℕ) : LauncherState :=
  match storeGet s.store cid with
  | Option.none => s
  | some sc =>
    let s := { s with store := storeUpdate s.store cid (fun c => { c with state := .playing }) }
    let s := { s with playing := mapSet s.playing sc.trackId cid }
    let s :=
      match sc.clip with
      | .audio _ regions => startAudioClip s cid regions
      | .midi _ notes => startMIDIClip s cid notes
    emit s (.clipStarted sc.trackId sc.slotIndex)

/-- launchClip: resolve quantization, create a triggered ScheduledClip at
the next boundary (current position instead when legato supersedes a
playing clip), mark any playing clip to stop at the boundary, queue the
new clip, and start it at once when quantization is none or the boundary
is not in the future. -/
def launchClip (s : LauncherState) (trackId : String) (slotIndex : ℕ) (clip : Clip)
    (quantization : LaunchQuantization) : LauncherState :=
  let q := if quantization = .global then s.globalQuantization else quantization
  let currentPos := getPos s
  let launchTime := getNextQuantizedBeat currentPos q s.bpm
  let newId := s.nextId
  let scheduled : ScheduledClip :=
    { id := newId
      trackId := trackId
      slotIndex := slotIndex
      clip := clip
      state := .triggered
      launchTime := launchTime
      stopTime := Option.none
      loopCount := 0
      sources := []
      midiEvents := [] }
  let currentlyPlaying := mapGet s.playing trackId
  let scheduled :=
    match currentlyPlaying with
    | some _ =>
      if clip.base.legato = some .legato then { scheduled with launchTime := currentPos }
      else scheduled
    | Option.none => scheduled
  let s := { s with nextId := newId + 1, store := storeSet s.store newId scheduled }
  let s :=
    match currentlyPlaying with
    | some pid =>
      { s with
        store := (storeUpdate s.store pid (fun c => { c with stopTime := some launchTime }))
        stopping := mapSet s.stopping trackId pid }
    | Option.none => s
  let s := { s with triggered := mapSet s.triggered trackId newId }
  if q = LaunchQuantization.none ∨ launchTime ≤ currentPos then startClip s newId else s

/-- stopScheduledClip: flip the clip to stopped, drop its sources, send a
note-off for every already-triggered MIDI event, clear the events, and
emit clip-stopped. -/
def stopScheduledClip (s : LauncherState) (cid : ℕ) : LauncherState :=
  match storeGet s.store cid with
  | Option.none => s
  | some sc =>
    let s := { s with store := (storeUpdate s.store cid
        (fun c => { c with state := .stopped, sources := [], midiEvents := [] })) }
    let s := sc.midiEvents.foldl
      (fun st ev =>
        if ev.triggered then { st with midiOut := st.midiOut ++ [(ev.note, 0, 0)] } else st)
      s
    emit s (.clipStopped sc.trackId sc.slotIndex)

/-- stopClip: mark the playing clip stopping at the resolved boundary,
finalize at once when quantization is none or the boundary has passed,
and cancel any triggered clip on the track unconditionally. -/
def stopClip (s : LauncherState) (trackId : String) (quantization : LaunchQuantization) :
    LauncherState :=
  let q := if quantization = .global then s.globalQuantization else quantization
  let currentPos := getPos s
  let stopTime := getNextQuantizedBeat currentPos q s.bpm
  let s :=
    match mapGet s.playing trackId with
    | some pid =>
      let s :=
        { s with
          store := (storeUpdate s.store pid
            (fun c => { c with state := .stopping, stopTime := some stopTime }))
          stopping := mapSet s.stopping trackId pid }
      if q = LaunchQuantization.none ∨ stopTime ≤ currentPos then
        let s := stopScheduledClip s pid
        { s with playing := mapDelete s.playing trackId
                 stopping := mapDelete s.stopping trackId }
      else s
    | Option.none => s
  { s with triggered := mapDelete s.triggered trackId }

/-- launchScene: launch every supplied (track, slot, clip) with the one
shared quantization argument. -/
def launchScene (s : LauncherState) (clips : List (String × ℕ × Clip))
    (quantization : LaunchQuantization) : LauncherState :=
  clips.foldl (fun st entry => launchClip st entry.1 entry.2.1 entry.2.2 quantization) s

/-- rescheduleMIDI: replace the event list with a fresh schedule. -/
def rescheduleMIDI (s : LauncherState) (cid : ℕ) (notes : List MIDINoteData) : LauncherState :=
  { s with store := (storeUpdate s.store cid
      (fun c => { c with midiEvents := scheduleNotes notes s.ctxTime s.bpm })) }

/-- processFollowAction: draw one random value, pick action A or B by its
chance, and run it (only stop has an internal effect; next, previous and
jump need session context the launcher lacks and fall through). -/
def processFollowAction (s : LauncherState) (cid : ℕ) (fa : FollowActionPair) : LauncherState :=
  match storeGet s.store cid with
  | Option.none => s
  | some sc =>
    let random := s.rng s.rngIdx
    let s := { s with rngIdx := s.rngIdx + 1 }
    let action := if random ≤ fa.actionA.chance then fa.actionA else fa.actionB
    if action.action = .none then s
    else
      let s := emit s (.followActionFired sc.trackId sc.slotIndex action)
      match action.action with
      | .stop => stopClip s sc.trackId .none
      | _ => s

/-- JS or-else on an optional number: undefined and 0 both fall back. -/
def jsOrQ (o : Option ℚ) (d : ℚ) : ℚ :=
  match o with
  | some v => if v = 0 then d else v
  | Option.none => d

/-- The MIDI dispatch part of processPlayingClip: trigger due note-ons and
send note-offs for triggered events past their end time. -/
def processMIDIEvents (s : LauncherState) (cid : ℕ) (now : ℚ) : LauncherState :=
  match storeGet s.store cid with
  | Option.none => s
  | some sc =>
    let seed : List ScheduledMIDIEvent × List (ℕ × ℕ × ℕ) := ([], s.midiOut)
    let r := sc.midiEvents.foldl
      (fun acc ev =>
        let hit := ev.triggered = false ∧ ev.startTime ≤ now
        let ev1 := if hit then { ev with triggered := true } else ev
        let outs1 := if hit then acc.2 ++ [(ev.note, ev.velocity, 0)] else acc.2
        let outs2 := if ev1.triggered = true ∧ ev1.endTime ≤ now then outs1 ++ [(ev1.note, 0, 0)]
          else outs1
        (acc.1 ++ [ev1], outs2))
      seed
    { s with
      store := storeUpdate s.store cid (fun c => { c with midiEvents := r.1 })
      midiOut := r.2 }

/-- The loop and auto-stop half of processPlayingClip: after the MIDI
dispatch, re-read the clip and either handle a loop-boundary crossing
(count, emit, follow action, reschedule) or finalize a finished
non-looping clip. -/
def processPlayingLoop (s : LauncherState) (cid : ℕ) (pos : Beats) : LauncherState :=
  match storeGet s.store cid with
  | Option.none => s
  | some sc =>
    let clipDuration := sc.clip.base.duration
    let clipPos := pos - sc.launchTime
    if sc.clip.base.loopEnabled ≠ some false then
      let loopEnd := jsOrQ sc.clip.base.loopEnd clipDuration
      if loopEnd * ((sc.loopCount : ℚ) + 1) ≤ clipPos then
        let s := { s with store := (storeUpdate s.store cid
            (fun c => { c with loopCount := c.loopCount + 1 })) }
        let s := emit s (.clipLooped sc.trackId sc.slotIndex (sc.loopCount + 1))
        let s :=
          match sc.clip.base.followAction with
          | some fa => processFollowAction s cid fa
          | Option.none => s
        match sc.clip with
        | .midi _ notes => rescheduleMIDI s cid notes
        | _ => s
      else s
    else
      if clipDuration ≤ clipPos then
        let s := stopScheduledClip s cid
        { s with playing := mapDelete s.playing sc.trackId }
      else s

/-- processPlayingClip: dispatch MIDI events for a MIDI clip, then run the
loop-boundary and auto-stop handling. -/
def processPlayingClip (s : LauncherState) (cid : ℕ) (pos : Beats) (now : ℚ) : LauncherState :=
  match storeGet s.store cid with
  | Option.none => s
  | some sc0 =>
    let s :=
      match sc0.clip with
      | .midi _ _ => processMIDIEvents s cid now
      | _ => s
    processPlayingLoop s cid pos

/-- The ticker's first section: start every triggered clip whose launch
beat has been reached, releasing its triggered-role entry. -/
def tickTriggeredPhase (s : LauncherState) (pos : Beats) : LauncherState :=
  s.triggered.foldl
    (fun st entry =>
      match storeGet st.store entry.2 with
      | some sc =>
        if sc.launchTime ≤ pos then
          let st := startClip st entry.2
          { st with triggered := mapDelete st.triggered entry.1 }
        else st
      | Option.none => st)
    s

/-- The ticker's second section: finalize every stopping clip whose stop
beat has been reached, releasing its playing and stopping roles. -/
def tickStoppingPhase (s : LauncherState) (pos : Beats) : LauncherState :=
  s.stopping.foldl
    (fun st entry =>
      match storeGet st.store entry.2 with
      | some sc =>
        match sc.stopTime with
        | some t =>
          if t ≤ pos then
            let st := stopScheduledClip st entry.2
            { st with playing := mapDelete st.playing entry.1
                      stopping := mapDelete st.stopping entry.1 }
          else st
        | Option.none => st
      | Option.none => st)
    s

/-- The ticker's third section: process every playing clip. -/
def tickPlayingPhase (s : LauncherState) (pos : Beats) (now : ℚ) : LauncherState :=
  s.playing.foldl (fun st entry => processPlayingClip st entry.2 pos now) s

/-- One invocation of the ticker body: the position and context time are
read once, then the three sections run in order. -/
def tick (s : LauncherState) : LauncherState :=
  let pos := getPos s
  let now := s.ctxTime
  tickPlayingPhase (tickStoppingPhase (tickTriggeredPhase s pos) pos) pos now

/-- Iterated ticks with the clock frozen: the sequence of ticker callbacks
between transport-time changes. -/
def tickN : ℕ → LauncherState → LauncherState
  | 0, s => s
  | n + 1, s => tickN n (tick s)

/-- getClipState fallthrough: the stopping-map check. -/
def getClipStateStopping (s : LauncherState) (trackId : String) (slotIndex : ℕ) : ClipState :=
  match (mapGet s.stopping trackId).bind (storeGet s.store) with
  | some sc => if sc.slotIndex = slotIndex then .stopping else .stopped
  | Option.none => .stopped

/-- getClipState fallthrough: the triggered-map check. -/
def getClipStateTriggered (s : LauncherState) (trackId : String) (slotIndex : ℕ) : ClipState :=
  match (mapGet s.triggered trackId).bind (storeGet s.store) with
  | some sc => if sc.slotIndex = slotIndex then .triggered else getClipStateStopping s trackId slotIndex
  | Option.none => getClipStateStopping s trackId slotIndex

/-- getClipState: playing-map entry first (reporting its state field),
then triggered, then stopping, defaulting to stopped. -/
def getClipState (s : LauncherState) (trackId : String) (slotIndex : ℕ) : ClipState :=
  match (mapGet s.playing trackId).bind (storeGet s.store) with
  | some sc => if sc.slotIndex = slotIndex then sc.state else getClipStateTriggered s trackId slotIndex
  | Option.none => getClipStateTriggered s trackId slotIndex

/-- isPlaying: does the track hold the playing role. -/
def isPlaying (s : LauncherState) (trackId : String) : Bool :=
  (mapGet s.playing trackId).isSome

/-- The states reachable through the launcher API interleaved with the
transport clock: any sequence of launches, stops, scene launches, sample
loads, ticker callbacks and clock movement from a fresh launcher. -/
inductive Reach : LauncherState → Prop where
  | init : ∀ bpm gq rng, Reach (initialState bpm gq rng)
  | launch : ∀ s trackId slotIndex clip q, Reach s → Reach (launchClip s trackId slotIndex clip q)
  | stop : ∀ s trackId q, Reach s → Reach (stopClip s trackId q)
  | scene : ∀ s clips q, Reach s → Reach (launchScene s clips q)
  | step : ∀ s, Reach s → Reach (tick s)
  | advance : ∀ s t, Reach s → Reach (advanceTime s t)
  | startT : ∀ s pos, Reach s → Reach (startTransport s pos)
  | load : ∀ s sid, Reach s → Reach (loadSample s sid)

-- ===========================================================================
-- Fixtures and observation functions
-- ===========================================================================

/-- A fixed Math.random stream for the concrete traces. -/
def demoRng : ℕ → ℚ := fun _ => 0

/-- Clip fixture A: an eight-beat non-looping MIDI clip without legato. -/
def clipA : Clip :=
  .midi
    { id := "A", duration := 8, loopEnabled := some false, loopStart := Option.none,
      loopEnd := Option.none, legato := Option.none, followAction := Option.none } []

/-- Clip fixture B: like A but in legato mode. -/
def clipB : Clip :=
  .midi
    { id := "B", duration := 8, loopEnabled := some false, loopStart := Option.none,
      loopEnd := Option.none, legato := some .legato, followAction := Option.none } []

/-- Clip fixture C: like A, for a second track. -/
def clipC : Clip :=
  .midi
    { id := "C", duration := 8, loopEnabled := some false, loopStart := Option.none,
      loopEnd := Option.none, legato := Option.none, followAction := Option.none } []

/-- Fresh launcher at 120 BPM with global quantization one bar. -/
def exS0 : LauncherState := initialState 120 .oneBar demoRng

/-- Clip A launched unquantized at beat 0: it plays at once. -/
def exS1 : LauncherState := launchClip exS0 "t" 0 clipA .none

/-- The clock advances half a second: the transport sits at beat 1. -/
def exS2 : LauncherState := advanceTime exS1 (1/2)

/-- Legato clip B launched on the same track at beat 1 with global
(one-bar) quantization. -/
def exS3 : LauncherState := launchClip exS2 "t" 1 clipB .global

/-- The clock advances to one second: the transport sits at beat 2. -/
def exS4 : LauncherState := advanceTime exS3 1

/-- A ticker callback runs at beat 2. -/
def exS5 : LauncherState := tick exS4

/-- From exS2, a scene launch pairing legato clip B on the playing track
with plain clip C on an idle track, quantized to one bar. -/
def exScene : LauncherState := launchScene exS2 [("t", 1, clipB), ("u", 0, clipC)] .oneBar

/-- From exS2, clip C triggered on an idle track with global quantization:
its boundary is beat 4, so it stays pending. -/
def exT : LauncherState := launchClip exS2 "u" 0 clipC .global

/-- The pending trigger cancelled by a quantized stop request. -/
def exTStop : LauncherState := stopClip exT "u" .oneBar

/-- Ids the three role maps reference for a track. -/
def trackRefs (s : LauncherState) (track : String) : List ℕ :=
  (((s.playing ++ s.triggered ++ s.stopping).filter (fun p => p.1 = track)).map Prod.snd).dedup

/-- Whether the stored clip with this id is a ScheduledClip of the track
whose state field is playing. -/
def isPlayingStateClip (s : LauncherState) (track : String) (i : ℕ) : Bool :=
  match storeGet s.store i with
  | some sc => sc.state == ClipState.playing && sc.trackId == track
  | Option.none => false

/-- Number of distinct ScheduledClips of the track, still referenced by
the launcher, whose state field is playing. -/
def playingStateCount (s : LauncherState) (track : String) : ℕ :=
  ((trackRefs s track).filter (isPlayingStateClip s track)).length

/-- Number of playing-role entries the track holds. -/
def playingRoleCount (s : LauncherState) (track : String) : ℕ :=
  (s.playing.filter (fun p => p.1 = track)).length

/-- Is the event a clip-started event of the track. -/
def isStartedFor (track : String) : ClipLauncherEvent → Bool
  | .clipStarted t _ => t == track
  | _ => false

/-- Number of clip-started events emitted so far for the track. -/
def startedCount (s : LauncherState) (track : String) : ℕ :=
  (s.events.filter (isStartedFor track)).length

/-- Structural invariants every reachable launcher state satisfies: store
ids are below the id counter, the role maps reference stored clips, a
triggered entry stores a clip of its own track, and the playing map holds
one entry per track. -/
structure Inv (s : LauncherState) : Prop where
  idsLt : ∀ p ∈ s.store, p.1 < s.nextId
  playingRef : ∀ p ∈ s.playing, p.2 ∈ s.store.map Prod.fst
  triggeredRef : ∀ p ∈ s.triggered, p.2 ∈ s.store.map Prod.fst
  stoppingRef : ∀ p ∈ s.stopping, p.2 ∈ s.store.map Prod.fst
  triggeredTrack : ∀ p ∈ s.triggered, ∀ sc, storeGet s.store p.2 = some sc → sc.trackId = p.1
  playingNodup : (s.playing.map Prod.fst).Nodup

/-- Store evolution along the scheduling operations: every clip still in
the store existed before, with its identity fields (track, slot, clip,
launch beat) unchanged; only state, stop beat, loop count, sources and
MIDI events are mutated in place. -/
def StorePres (a b : List (ℕ × ScheduledClip)) : Prop :=
  ∀ j sc, storeGet b j = some sc →
    ∃ sc0, storeGet a j = some sc0 ∧ sc.trackId = sc0.trackId ∧
      sc.slotIndex = sc0.slotIndex ∧ sc.launchTime = sc0.launchTime ∧ sc.clip = sc0.clip

/-- The configuration and clock fields no scheduling operation mutates. -/
def ScalarFrame (s t : LauncherState) : Prop :=
  t.nextId = s.nextId ∧ t.position = s.position ∧ t.startTime = s.startTime ∧
  t.ctxTime = s.ctxTime ∧ t.bpm = s.bpm ∧ t.globalQuantization = s.globalQuantization ∧
  t.sampleIds = s.sampleIds

/-- The facts every ticker-internal operation preserves: the frozen
scalar configuration, the store key set, the identity fields of stored
clips, the count of clip-started events per track, shrinking playing and
triggered maps, and the reachable-state invariants. -/
def EffPack (s t : LauncherState) : Prop :=
  ScalarFrame s t ∧
  t.store.map Prod.fst = s.store.map Prod.fst ∧
  StorePres s.store t.store ∧
  (∀ t', startedCount t t' = startedCount s t') ∧
  (∀ p ∈ t.playing, p ∈ s.playing) ∧
  (∀ p ∈ t.triggered, p ∈ s.triggered) ∧
  (Inv s → Inv t)

/-- A single-sample source buffer for the disabled-warp witness. -/
def c10Buffer : AudioBuffer := ⟨44100, [#[1]]⟩

/-- An engine with a loaded source buffer and warping disabled. -/
def c10Engine : WarpEngine :=
  { sourceBuffer := some c10Buffer
    settings :=
      { enabled := false, mode := .beats, originalBPM := 120, markers := [],
        transientSensitivity := 1/2, grainSize := 50, preservePitch := true }
    grainWindows := [] }

-- ===========================================================================
-- Lemmas about the peak computation
-- ===========================================================================

theorem le_foldl_max (l : List ℚ) (b : ℚ) : b ≤ l.foldl (fun m a => max m |a|) b := by
  induction l generalizing b with
  | nil => exact le_refl b
  | cons x xs ih => exact le_trans (le_max_left b |x|) (ih (max b |x|))

theorem abs_le_foldl_max (l : List ℚ) (b v : ℚ) (hv : v ∈ l) :
    |v| ≤ l.foldl (fun m a => max m |a|) b := by
  induction l generalizing b with
  | nil => cases hv
  | cons x xs ih =>
    rcases List.mem_cons.mp hv with h | h
    · subst h; exact le_trans (le_max_right b |v|) (le_foldl_max xs (max b |v|))
    · exact ih (max b |x|) h

theorem foldl_max_le (l : List ℚ) (c b : ℚ) (hb : b ≤ c) (h : ∀ v ∈ l, |v| ≤ c) :
    l.foldl (fun m a => max m |a|) b ≤ c := by
  induction l generalizing b with
  | nil => exact hb
  | cons x xs ih =>
    exact ih (max b |x|) (max_le hb (h x (List.mem_cons_self x xs)))
      (fun v hv => h v (List.mem_cons_of_mem x hv))

theorem abs_le_peakAbsL (l : List ℚ) (v : ℚ) (hv : v ∈ l) : |v| ≤ peakAbsL l :=
  abs_le_foldl_max l 0 v hv

theorem peakAbsL_le (l : List ℚ) (c : ℚ) (hc : 0 ≤ c) (h : ∀ v ∈ l, |v| ≤ c) :
    peakAbsL l ≤ c :=
  foldl_max_le l c 0 hc h

theorem peakAbs_normalizeIfClipping (a : Array ℚ) : peakAbs (normalizeIfClipping a) ≤ 1 := by
  unfold normalizeIfClipping
  by_cases h : 1 < peakAbs a
  · simp only [if_pos h]
    have hp : 0 < peakAbs a := lt_trans one_pos h
    apply peakAbsL_le _ _ (by norm_num)
    intro v hv
    rw [Array.toList_map] at hv
    rcases List.mem_map.mp hv with ⟨w, hw, rfl⟩
    rw [abs_div, abs_of_pos hp]
    exact div_le_one_of_le₀ (abs_le_peakAbsL _ _ hw) (le_of_lt hp)
  · simp only [if_neg h]
    exact le_of_not_lt h

-- ===========================================================================
-- C6
-- ===========================================================================

/-- C6: after the granular stretch or the texture granular stretch, the
peak absolute sample value of the output is at most 1; the output is the
raw synthesis divided samplewise by its peak exactly when that peak
exceeds 1, and the raw synthesis unchanged otherwise. -/
theorem c6_no_clip_normalization (e : WarpEngine) (input : Array ℚ) (outputLen : ℕ)
    (ratio : ℚ) (rng : ℕ → ℚ) (k : ℕ) :
    (peakAbs (granularStretch e input outputLen ratio) ≤ 1 ∧
      granularStretch e input outputLen ratio =
        (if 1 < peakAbs (granularRaw e input outputLen ratio) then
          (granularRaw e input outputLen ratio).map
            (fun v => v / peakAbs (granularRaw e input outputLen ratio))
         else granularRaw e input outputLen ratio)) ∧
    (peakAbs (textureGranularStretch e input outputLen ratio rng k).1 ≤ 1 ∧
      (textureGranularStretch e input outputLen ratio rng k).1 =
        (if 1 < peakAbs (textureRaw e input outputLen ratio rng k).1 then
          (textureRaw e input outputLen ratio rng k).1.map
            (fun v => v / peakAbs (textureRaw e input outputLen ratio rng k).1)
         else (textureRaw e input outputLen ratio rng k).1)) := by
  refine ⟨⟨peakAbs_normalizeIfClipping _, rfl⟩, ⟨?_, ?_⟩⟩
  · show peakAbs (normalizeIfClipping (textureRaw e input outputLen ratio rng k).1) ≤ 1
    exact peakAbs_normalizeIfClipping _
  · rfl

-- ===========================================================================
-- C5
-- ===========================================================================

/-- C5: process returns null exactly when no source buffer is loaded; with
a loaded source it returns a buffer for every target duration, every warp
mode and every random stream. -/
theorem c5_process_none_iff (e : WarpEngine) (rng : ℕ → ℚ) (td : Seconds) :
    process e rng td = Option.none ↔ e.sourceBuffer = Option.none := by
  cases hsrc : e.sourceBuffer with
  | none => simp [process, hsrc]
  | some src =>
    simp only [process, hsrc]
    constructor
    · intro h
      by_cases he : e.settings.enabled = false
      · simp [he] at h
      · simp only [if_neg he] at h
        cases hm : e.settings.mode <;> simp [hm] at h
    · intro h
      exact Option.noConfusion h

-- ===========================================================================
-- C9
-- ===========================================================================

/-- C9: with the mode set to complex, process computes exactly what it
computes with the mode set to tones, for every engine, source, duration
and random stream. -/
theorem c9_complex_eq_tones (e : WarpEngine) (rng : ℕ → ℚ) (td : Seconds) :
    process { e with settings := { e.settings with mode := WarpMode.complex } } rng td =
      process { e with settings := { e.settings with mode := WarpMode.tones } } rng td := by
  unfold process
  cases hsrc : e.sourceBuffer with
  | none => rfl
  | some src =>
    by_cases he : e.settings.enabled = false
    · simp [hsrc, he]
    · simp only [hsrc, if_neg he]
      rfl

-- ===========================================================================
-- C10
-- ===========================================================================

/-- C10: with a loaded source buffer but the enabled flag false, process
returns the source buffer unchanged for every duration and mode. -/
theorem c10_disabled_passthrough (e : WarpEngine) (rng : ℕ → ℚ) (td : Seconds)
    (b : AudioBuffer) (hsrc : e.sourceBuffer = some b)
    (hen : e.settings.enabled = false) :
    process e rng td = some b := by
  unfold process
  rw [hsrc]
  simp [hen]

/-- Witness: the concrete disabled engine passes its buffer through. -/
theorem c10_disabled_passthrough_witness : process c10Engine demoRng 1 = some c10Buffer :=
  c10_disabled_passthrough c10Engine demoRng 1 c10Buffer rfl rfl

-- ===========================================================================
-- C8
-- ===========================================================================

/-- C8: for every bpm above zero and nonnegative beat count, converting
beats to seconds and back is the identity, exactly, over the rationals. -/
theorem c8_time_roundtrip (beats : Beats) (bpm : ℚ) (hbpm : 0 < bpm) (hbeats : 0 ≤ beats) :
    secondsToBeats (beatsToSeconds beats bpm) bpm = beats := by
  unfold secondsToBeats beatsToSeconds
  field_simp
  ring

/-- Witness: three beats at 120 BPM round-trip exactly. -/
theorem c8_time_roundtrip_witness : secondsToBeats (beatsToSeconds 3 120) 120 = 3 :=
  c8_time_roundtrip 3 120 (by norm_num) (by norm_num)

-- ===========================================================================
-- C7
-- ===========================================================================

theorem c7_s1 (x : ℚ) (h0 : 0 ≤ x) (h1 : x ≤ 1) : sampleToBeat c7Engine x = 2 * x := by
  simp only [sampleToBeat, c7Engine, sampleToBeatLoop]
  norm_num [h0, h1]
  try ring

theorem c7_s2 (x : ℚ) (h1 : 1 < x) (h2 : x ≤ 2) :
    sampleToBeat c7Engine x = 2 + (x - 1) * (5/2) := by
  simp only [sampleToBeat, c7Engine, sampleToBeatLoop]
  norm_num [not_le.mpr h1, le_of_lt h1, h2]
  try ring

theorem c7_b1 (y : ℚ) (h0 : 0 ≤ y) (h2 : y ≤ 2) : beatToSample c7Engine y = y / 2 := by
  simp only [beatToSample, c7Engine, beatToSampleLoop]
  norm_num [h0, h2]
  try ring

theorem c7_b2 (y : ℚ) (h2 : 2 < y) (h9 : y ≤ 9/2) :
    beatToSample c7Engine y = 1 + (y - 2) / (5/2) := by
  simp only [beatToSample, c7Engine, beatToSampleLoop]
  norm_num [not_le.mpr h2, le_of_lt h2, h9]
  try ring

/-- C7: for the marker set at samples 0, 1, 2 and beats 0, 2, 4.5, the
beat-to-sample map inverts the sample-to-beat map exactly on the sample
interval from 0 to 2. -/
theorem c7_warp_inverse (x : ℚ) (h0 : 0 ≤ x) (h2 : x ≤ 2) :
    beatToSample c7Engine (sampleToBeat c7Engine x) = x := by
  by_cases hx : x ≤ 1
  · rw [c7_s1 x h0 hx, c7_b1 (2 * x) (by linarith) (by linarith)]
    ring
  · have hx1 : 1 < x := not_le.mp hx
    rw [c7_s2 x hx1 h2, c7_b2 (2 + (x - 1) * (5/2)) (by nlinarith) (by nlinarith)]
    ring

/-- Witness: the midpoint sample 1.5 round-trips through beat 13/4. -/
theorem c7_warp_inverse_witness : beatToSample c7Engine (sampleToBeat c7Engine (3/2)) = 3/2 :=
  c7_warp_inverse (3/2) (by norm_num) (by norm_num)

-- ===========================================================================
-- Generic lemmas about folds, the JS maps and the clip store
-- ===========================================================================

theorem foldl_inv {σ α : Type _} (P : σ → Prop) (f : σ → α → σ) :
    ∀ (l : List α), (∀ x ∈ l, ∀ st, P st → P (f st x)) → ∀ st, P st → P (l.foldl f st)
  | [], _, _, h => h
  | x :: xs, hl, st, h =>
    foldl_inv P f xs (fun y hy => hl y (List.mem_cons_of_mem x hy)) (f st x)
      (hl x (List.mem_cons_self x xs) st h)

theorem mapGet_cons (p : String × ℕ) (m : List (String × ℕ)) (k : String) :
    mapGet (p :: m) k = if p.1 = k then some p.2 else mapGet m k := by
  unfold mapGet
  by_cases hp : p.1 = k <;> simp [List.find?_cons, hp]

theorem storeGet_cons (p : ℕ × ScheduledClip) (st : List (ℕ × ScheduledClip)) (i : ℕ) :
    storeGet (p :: st) i = if p.1 = i then some p.2 else storeGet st i := by
  unfold storeGet
  by_cases hp : p.1 = i <;> simp [List.find?_cons, hp]

theorem mapGet_mapSet_self (m : List (String × ℕ)) (k : String) (v : ℕ) :
    mapGet (mapSet m k v) k = some v := by
  unfold mapSet
  by_cases ha : m.any (fun p => p.1 = k) = true
  · rw [if_pos ha]
    induction m with
    | nil => simp at ha
    | cons p m ih =>
      by_cases hp : p.1 = k
      · simp [mapGet_cons, hp]
      · have ham : m.any (fun p => p.1 = k) = true := by simpa [hp] using ha
        simpa [mapGet_cons, hp] using ih ham
  · rw [if_neg ha]
    induction m with
    | nil => simp [mapGet_cons]
    | cons p m ih =>
      have hp : ¬ p.1 = k := by
        intro hk
        exact ha (by simp [List.any_cons, hk])
      have ham : ¬ m.any (fun p => p.1 = k) = true := by
        intro hm
        exact ha (by simp [List.any_cons, hm])
      simpa [mapGet_cons, hp] using ih ham

theorem mapGet_mapSet_ne (m : List (String × ℕ)) (k : String) (v : ℕ) (j : String)
    (hj : j ≠ k) : mapGet (mapSet m k v) j = mapGet m j := by
  have hkv : ¬ ((k, v) : String × ℕ).1 = j := fun h => hj h.symm
  unfold mapSet
  by_cases ha : m.any (fun p => p.1 = k) = true
  · rw [if_pos ha]
    clear ha
    induction m with
    | nil => rfl
    | cons p m ih =>
      rw [List.map_cons, mapGet_cons, mapGet_cons]
      by_cases hp : p.1 = k
      · rw [if_pos hp]
        have h2 : ¬ p.1 = j := by rw [hp]; exact fun h => hj h.symm
        rw [if_neg hkv, if_neg h2, ih]
      · rw [if_neg hp]
        by_cases hpj : p.1 = j
        · rw [if_pos hpj, if_pos hpj]
        · rw [if_neg hpj, if_neg hpj, ih]
  · rw [if_neg ha]
    clear ha
    induction m with
    | nil =>
      show mapGet [(k, v)] j = mapGet [] j
      rw [mapGet_cons, if_neg hkv]
    | cons p m ih =>
      rw [List.cons_append, mapGet_cons, mapGet_cons]
      by_cases hpj : p.1 = j
      · rw [if_pos hpj, if_pos hpj]
      · rw [if_neg hpj, if_neg hpj, ih]

theorem mapGet_mapDelete_self (m : List (String × ℕ)) (k : String) :
    mapGet (mapDelete m k) k = Option.none := by
  unfold mapDelete
  induction m with
  | nil => rfl
  | cons p m ih =>
    by_cases hp : p.1 = k
    · simpa [List.filter_cons, hp] using ih
    · simpa [List.filter_cons, hp, mapGet_cons] using ih

theorem mapDelete_cons (p : String × ℕ) (m : List (String × ℕ)) (k : String) :
    mapDelete (p :: m) k = if p.1 = k then mapDelete m k else p :: mapDelete m k := by
  unfold mapDelete
  by_cases hp : p.1 = k <;> simp [List.filter_cons, hp]

theorem mapGet_mapDelete_ne (m : List (String × ℕ)) (k j : String) (hj : j ≠ k) :
    mapGet (mapDelete m k) j = mapGet m j := by
  induction m with
  | nil => rfl
  | cons p m ih =>
    rw [mapDelete_cons, mapGet_cons]
    by_cases hp : p.1 = k
    · have hpj : ¬ p.1 = j := by rw [hp]; exact fun h => hj h.symm
      rw [if_pos hp, if_neg hpj, ih]
    · rw [if_neg hp, mapGet_cons]
      by_cases hpj : p.1 = j
      · rw [if_pos hpj, if_pos hpj]
      · rw [if_neg hpj, if_neg hpj, ih]

theorem mapGet_some_mem (m : List (String × ℕ)) (k : String) (v : ℕ)
    (h : mapGet m k = some v) : (k, v) ∈ m := by
  induction m with
  | nil => simp [mapGet] at h
  | cons p m ih =>
    rw [mapGet_cons] at h
    by_cases hp : p.1 = k
    · rw [if_pos hp] at h
      have hv : p.2 = v := Option.some.inj h
      have hpkv : p = (k, v) := by
        calc p = (p.1, p.2) := rfl
          _ = (k, v) := by rw [hp, hv]
      rw [← hpkv]
      exact List.mem_cons_self p m
    · rw [if_neg hp] at h
      exact List.mem_cons_of_mem p (ih h)

theorem mapGet_eq_none_iff (m : List (String × ℕ)) (k : String) :
    mapGet m k = Option.none ↔ ∀ p ∈ m, ¬ p.1 = k := by
  induction m with
  | nil => simp [mapGet]
  | cons p m ih =>
    rw [mapGet_cons]
    by_cases hp : p.1 = k
    · simp [hp]
    · simp [hp, ih]

theorem mem_mapSet (m : List (String × ℕ)) (k : String) (v : ℕ) (p : String × ℕ)
    (h : p ∈ mapSet m k v) : p = (k, v) ∨ p ∈ m := by
  unfold mapSet at h
  by_cases ha : m.any (fun p => p.1 = k) = true
  · rw [if_pos ha] at h
    rcases List.mem_map.mp h with ⟨q, hq, rfl⟩
    by_cases hqk : q.1 = k
    · left; simp [hqk]
    · right; simpa [hqk] using hq
  · rw [if_neg ha] at h
    rcases List.mem_append.mp h with hh | hh
    · right; exact hh
    · left; simpa using hh

theorem mem_mapDelete (m : List (String × ℕ)) (k : String) (p : String × ℕ)
    (h : p ∈ mapDelete m k) : p ∈ m ∧ ¬ p.1 = k := by
  unfold mapDelete at h
  refine ⟨List.mem_of_mem_filter h, ?_⟩
  have := List.of_mem_filter h
  simpa using this

theorem keys_mapSet (m : List (String × ℕ)) (k : String) (v : ℕ) :
    (mapSet m k v).map Prod.fst = m.map Prod.fst ∨
      ((mapSet m k v).map Prod.fst = m.map Prod.fst ++ [k] ∧ ∀ p ∈ m, ¬ p.1 = k) := by
  unfold mapSet
  by_cases ha : m.any (fun p => p.1 = k) = true
  · left
    rw [if_pos ha, List.map_map]
    apply List.map_congr_left
    intro p hp
    by_cases hpk : p.1 = k
    · simp [Function.comp, hpk]
    · simp [Function.comp, hpk]
  · right
    rw [if_neg ha]
    constructor
    · simp
    · intro p hp hk
      exact ha (List.any_eq_true.mpr ⟨p, hp, by simp [hk]⟩)

theorem nodup_keys_mapSet (m : List (String × ℕ)) (k : String) (v : ℕ)
    (h : (m.map Prod.fst).Nodup) : ((mapSet m k v).map Prod.fst).Nodup := by
  rcases keys_mapSet m k v with hk | ⟨hk, hfree⟩
  · rw [hk]; exact h
  · rw [hk, List.nodup_append]
    refine ⟨h, List.nodup_singleton k, ?_⟩
    intro a ha hb
    simp only [List.mem_singleton] at hb
    subst hb
    rcases List.mem_map.mp ha with ⟨p, hp, hpk⟩
    exact hfree p hp hpk

theorem nodup_keys_mapDelete (m : List (String × ℕ)) (k : String)
    (h : (m.map Prod.fst).Nodup) : ((mapDelete m k).map Prod.fst).Nodup := by
  unfold mapDelete
  exact ((List.filter_sublist m).map Prod.fst).nodup h

theorem storeUpdate_cons (p : ℕ × ScheduledClip) (st : List (ℕ × ScheduledClip)) (i : ℕ)
    (f : ScheduledClip → ScheduledClip) :
    storeUpdate (p :: st) i f =
      (if p.1 = i then (p.1, f p.2) else p) :: storeUpdate st i f := by
  unfold storeUpdate
  rw [List.map_cons]

theorem storeGet_storeUpdate (st : List (ℕ × ScheduledClip)) (i : ℕ)
    (f : ScheduledClip → ScheduledClip) (j : ℕ) :
    storeGet (storeUpdate st i f) j =
      if j = i then (storeGet st j).map f else storeGet st j := by
  induction st with
  | nil => by_cases hj : j = i <;> simp [storeUpdate, storeGet, hj]
  | cons p st ih =>
    rw [storeUpdate_cons, storeGet_cons, storeGet_cons]
    by_cases hpi : p.1 = i
    · rw [if_pos hpi]
      by_cases hpj : p.1 = j
      · have hj : j = i := by rw [← hpj, hpi]
        have hx : ((p.1, f p.2) : ℕ × ScheduledClip).1 = j := hpj
        rw [if_pos hx, if_pos hpj, if_pos hj]
        rfl
      · have hj : ¬ j = i := by
          intro hh
          exact hpj (by rw [hpi, hh])
        have hx : ¬ ((p.1, f p.2) : ℕ × ScheduledClip).1 = j := hpj
        rw [if_neg hx, if_neg hpj, ih, if_neg hj]
    · rw [if_neg hpi]
      by_cases hpj : p.1 = j
      · have hj : ¬ j = i := by
          intro hh
          exact hpi (by rw [hpj, hh])
        rw [if_pos hpj, if_pos hpj, if_neg hj]
      · rw [if_neg hpj, if_neg hpj, ih]

theorem keys_storeUpdate (st : List (ℕ × ScheduledClip)) (i : ℕ)
    (f : ScheduledClip → ScheduledClip) :
    (storeUpdate st i f).map Prod.fst = st.map Prod.fst := by
  unfold storeUpdate
  rw [List.map_map]
  apply List.map_congr_left
  intro p hp
  by_cases hpk : p.1 = i
  · simp [Function.comp, hpk]
  · simp [Function.comp, hpk]

theorem storeGet_storeSet_ne (st : List (ℕ × ScheduledClip)) (i : ℕ) (c : ScheduledClip)
    (j : ℕ) (hj : j ≠ i) : storeGet (storeSet st i c) j = storeGet st j := by
  have hic : ¬ ((i, c) : ℕ × ScheduledClip).1 = j := fun h => hj h.symm
  unfold storeSet
  by_cases ha : st.any (fun p => p.1 = i) = true
  · rw [if_pos ha]
    clear ha
    induction st with
    | nil => rfl
    | cons p st ih =>
      rw [List.map_cons, storeGet_cons, storeGet_cons]
      by_cases hpi : p.1 = i
      · rw [if_pos hpi]
        have hpj : ¬ p.1 = j := by rw [hpi]; exact fun h => hj h.symm
        rw [if_neg hic, if_neg hpj, ih]
      · rw [if_neg hpi]
        by_cases hpj : p.1 = j
        · rw [if_pos hpj, if_pos hpj]
        · rw [if_neg hpj, if_neg hpj, ih]
  · rw [if_neg ha]
    clear ha
    induction st with
    | nil =>
      show storeGet [(i, c)] j = storeGet [] j
      rw [storeGet_cons, if_neg hic]
    | cons p st ih =>
      rw [List.cons_append, storeGet_cons, storeGet_cons]
      by_cases hpj : p.1 = j
      · rw [if_pos hpj, if_pos hpj]
      · rw [if_neg hpj, if_neg hpj, ih]

theorem storeGet_storeSet_fresh (st : List (ℕ × ScheduledClip)) (i : ℕ) (c : ScheduledClip)
    (hfresh : ∀ p ∈ st, ¬ p.1 = i) : storeGet (storeSet st i c) i = some c := by
  unfold storeSet
  have ha : ¬ st.any (fun p => p.1 = i) = true := by
    intro hh
    rcases List.any_eq_true.mp hh with ⟨p, hp, hpe⟩
    exact hfresh p hp (by simpa using hpe)
  rw [if_neg ha]
  clear ha
  induction st with
  | nil =>
    show storeGet [(i, c)] i = some c
    rw [storeGet_cons]
    have : ((i, c) : ℕ × ScheduledClip).1 = i := rfl
    rw [if_pos this]
  | cons p st ih =>
    have hp : ¬ p.1 = i := hfresh p (List.mem_cons_self p st)
    rw [List.cons_append, storeGet_cons, if_neg hp]
    exact ih (fun q hq => hfresh q (List.mem_cons_of_mem p hq))

theorem mem_storeSet (st : List (ℕ × ScheduledClip)) (i : ℕ) (c : ScheduledClip)
    (p : ℕ × ScheduledClip) (h : p ∈ storeSet st i c) : p = (i, c) ∨ p ∈ st := by
  unfold storeSet at h
  by_cases ha : st.any (fun p => p.1 = i) = true
  · rw [if_pos ha] at h
    rcases List.mem_map.mp h with ⟨q, hq, rfl⟩
    by_cases hqk : q.1 = i
    · left; simp [hqk]
    · right; simpa [hqk] using hq
  · rw [if_neg ha] at h
    rcases List.mem_append.mp h with hh | hh
    · right; exact hh
    · left; simpa using hh

theorem mem_keys_storeSet_self (st : List (ℕ × ScheduledClip)) (i : ℕ) (c : ScheduledClip) :
    i ∈ (storeSet st i c).map Prod.fst := by
  unfold storeSet
  by_cases ha : st.any (fun p => p.1 = i) = true
  · rw [if_pos ha]
    rcases List.any_eq_true.mp ha with ⟨p, hp, hpe⟩
    have hpi : p.1 = i := by simpa using hpe
    exact List.mem_map.mpr ⟨(i, c), List.mem_map.mpr ⟨p, hp, by simp [hpi]⟩, rfl⟩
  · rw [if_neg ha]
    simp

theorem keys_storeSet_mono (st : List (ℕ × ScheduledClip)) (i : ℕ) (c : ScheduledClip)
    (j : ℕ) (hj : j ∈ st.map Prod.fst) : j ∈ (storeSet st i c).map Prod.fst := by
  unfold storeSet
  by_cases ha : st.any (fun p => p.1 = i) = true
  · rw [if_pos ha]
    rcases List.mem_map.mp hj with ⟨p, hp, hpj⟩
    by_cases hpi : p.1 = i
    · refine List.mem_map.mpr ⟨(i, c), List.mem_map.mpr ⟨p, hp, by simp [hpi]⟩, ?_⟩
      rw [← hpj, hpi]
    · exact List.mem_map.mpr ⟨p, List.mem_map.mpr ⟨p, hp, by simp [hpi]⟩, hpj⟩
  · rw [if_neg ha]
    simp [List.mem_map.mp hj]

theorem storeGet_some_mem_keys (st : List (ℕ × ScheduledClip)) (i : ℕ) (c : ScheduledClip)
    (h : storeGet st i = some c) : i ∈ st.map Prod.fst := by
  induction st with
  | nil => simp [storeGet] at h
  | cons p st ih =>
    rw [storeGet_cons] at h
    by_cases hp : p.1 = i
    · simp [hp]
    · rw [if_neg hp] at h
      exact List.mem_cons_of_mem _ (ih h)

theorem mem_keys_storeGet_isSome (st : List (ℕ × ScheduledClip)) (i : ℕ)
    (h : i ∈ st.map Prod.fst) : ∃ c, storeGet st i = some c := by
  induction st with
  | nil => simp at h
  | cons p st ih =>
    rw [storeGet_cons]
    by_cases hp : p.1 = i
    · exact ⟨p.2, by rw [if_pos hp]⟩
    · rw [if_neg hp]
      apply ih
      rcases List.mem_map.mp h with ⟨q, hq, hqi⟩
      rcases List.mem_cons.mp hq with rfl | hq2
      · exact absurd hqi hp
      · exact List.mem_map.mpr ⟨q, hq2, hqi⟩

theorem storePres_refl (a : List (ℕ × ScheduledClip)) : StorePres a a :=
  fun j sc h => ⟨sc, h, rfl, rfl, rfl, rfl⟩

theorem storePres_trans {a b c : List (ℕ × ScheduledClip)}
    (h1 : StorePres a b) (h2 : StorePres b c) : StorePres a c := by
  intro j sc h
  rcases h2 j sc h with ⟨sc1, hb, e1, e2, e3, e4⟩
  rcases h1 j sc1 hb with ⟨sc0, ha, f1, f2, f3, f4⟩
  exact ⟨sc0, ha, e1.trans f1, e2.trans f2, e3.trans f3, e4.trans f4⟩

theorem storePres_storeUpdate (a : List (ℕ × ScheduledClip)) (i : ℕ)
    (f : ScheduledClip → ScheduledClip)
    (hf : ∀ c, (f c).trackId = c.trackId ∧ (f c).slotIndex = c.slotIndex ∧
      (f c).launchTime = c.launchTime ∧ (f c).clip = c.clip) :
    StorePres a (storeUpdate a i f) := by
  intro j sc h
  rw [storeGet_storeUpdate] at h
  by_cases hj : j = i
  · rw [if_pos hj] at h
    cases hget : storeGet a j with
    | none => rw [hget] at h; exact Option.noConfusion h
    | some sc0 =>
      rw [hget] at h
      have : f sc0 = sc := Option.some.inj h
      rcases hf sc0 with ⟨e1, e2, e3, e4⟩
      rw [← this]
      exact ⟨sc0, rfl, e1, e2, e3, e4⟩
  · rw [if_neg hj] at h
    exact ⟨sc, h, rfl, rfl, rfl, rfl⟩

-- ===========================================================================
-- Effect lemmas for the launcher operations
-- ===========================================================================

theorem startAudioClip_scalars (s : LauncherState) (cid : ℕ) (regions : List AudioRegion) :
    (startAudioClip s cid regions).playing = s.playing ∧
    (startAudioClip s cid regions).triggered = s.triggered ∧
    (startAudioClip s cid regions).stopping = s.stopping ∧
    (startAudioClip s cid regions).nextId = s.nextId ∧
    (startAudioClip s cid regions).events = s.events ∧
    (startAudioClip s cid regions).position = s.position ∧
    (startAudioClip s cid regions).startTime = s.startTime ∧
    (startAudioClip s cid regions).ctxTime = s.ctxTime ∧
    (startAudioClip s cid regions).bpm = s.bpm ∧
    (startAudioClip s cid regions).globalQuantization = s.globalQuantization ∧
    (startAudioClip s cid regions).sampleIds = s.sampleIds := by
  refine foldl_inv
    (fun t => t.playing = s.playing ∧ t.triggered = s.triggered ∧ t.stopping = s.stopping ∧
      t.nextId = s.nextId ∧ t.events = s.events ∧ t.position = s.position ∧
      t.startTime = s.startTime ∧ t.ctxTime = s.ctxTime ∧ t.bpm = s.bpm ∧
      t.globalQuantization = s.globalQuantization ∧ t.sampleIds = s.sampleIds)
    _ regions ?_ s ⟨rfl, rfl, rfl, rfl, rfl, rfl, rfl, rfl, rfl, rfl, rfl⟩
  intro x hx st hst
  dsimp only
  split
  · exact hst
  · exact hst

theorem startAudioClip_keys (s : LauncherState) (cid : ℕ) (regions : List AudioRegion) :
    (startAudioClip s cid regions).store.map Prod.fst = s.store.map Prod.fst := by
  refine foldl_inv (fun t => t.store.map Prod.fst = s.store.map Prod.fst)
    _ regions ?_ s rfl
  intro x hx st hst
  dsimp only
  split
  · rw [keys_storeUpdate]; exact hst
  · exact hst

theorem startAudioClip_storePres (s : LauncherState) (cid : ℕ) (regions : List AudioRegion) :
    StorePres s.store (startAudioClip s cid regions).store := by
  refine foldl_inv (fun t => StorePres s.store t.store) _ regions ?_ s (storePres_refl _)
  intro x hx st hst
  dsimp only
  split
  · refine storePres_trans hst ?_
    dsimp only
    apply storePres_storeUpdate
    intro c
    exact ⟨rfl, rfl, rfl, rfl⟩
  · exact hst

theorem startAudioClip_store_ne (s : LauncherState) (cid : ℕ) (regions : List AudioRegion)
    (j : ℕ) (hj : j ≠ cid) :
    storeGet (startAudioClip s cid regions).store j = storeGet s.store j := by
  refine foldl_inv (fun t => storeGet t.store j = storeGet s.store j) _ regions ?_ s rfl
  intro x hx st hst
  dsimp only
  split
  · rw [storeGet_storeUpdate, if_neg hj]; exact hst
  · exact hst

theorem startMIDIClip_scalars (s : LauncherState) (cid : ℕ) (notes : List MIDINoteData) :
    (startMIDIClip s cid notes).playing = s.playing ∧
    (startMIDIClip s cid notes).triggered = s.triggered ∧
    (startMIDIClip s cid notes).stopping = s.stopping ∧
    (startMIDIClip s cid notes).nextId = s.nextId ∧
    (startMIDIClip s cid notes).events = s.events ∧
    (startMIDIClip s cid notes).position = s.position ∧
    (startMIDIClip s cid notes).startTime = s.startTime ∧
    (startMIDIClip s cid notes).ctxTime = s.ctxTime ∧
    (startMIDIClip s cid notes).bpm = s.bpm ∧
    (startMIDIClip s cid notes).globalQuantization = s.globalQuantization ∧
    (startMIDIClip s cid notes).sampleIds = s.sampleIds :=
  ⟨rfl, rfl, rfl, rfl, rfl, rfl, rfl, rfl, rfl, rfl, rfl⟩

theorem startMIDIClip_keys (s : LauncherState) (cid : ℕ) (notes : List MIDINoteData) :
    (startMIDIClip s cid notes).store.map Prod.fst = s.store.map Prod.fst := by
  unfold startMIDIClip
  dsimp only
  exact keys_storeUpdate _ _ _

theorem startMIDIClip_storePres (s : LauncherState) (cid : ℕ) (notes : List MIDINoteData) :
    StorePres s.store (startMIDIClip s cid notes).store := by
  unfold startMIDIClip
  dsimp only
  apply storePres_storeUpdate
  intro c
  exact ⟨rfl, rfl, rfl, rfl⟩

theorem startMIDIClip_store_ne (s : LauncherState) (cid : ℕ) (notes : List MIDINoteData)
    (j : ℕ) (hj : j ≠ cid) :
    storeGet (startMIDIClip s cid notes).store j = storeGet s.store j := by
  unfold startMIDIClip
  dsimp only
  rw [storeGet_storeUpdate, if_neg hj]

theorem startClip_scalars (s : LauncherState) (cid : ℕ) :
    (startClip s cid).triggered = s.triggered ∧ (startClip s cid).stopping = s.stopping ∧
    (startClip s cid).nextId = s.nextId ∧ (startClip s cid).position = s.position ∧
    (startClip s cid).startTime = s.startTime ∧ (startClip s cid).ctxTime = s.ctxTime ∧
    (startClip s cid).bpm = s.bpm ∧
    (startClip s cid).globalQuantization = s.globalQuantization ∧
    (startClip s cid).sampleIds = s.sampleIds := by
  unfold startClip
  cases hget : storeGet s.store cid with
  | none => exact ⟨rfl, rfl, rfl, rfl, rfl, rfl, rfl, rfl, rfl⟩
  | some sc =>
    cases hclip : sc.clip with
    | audio base regions =>
      simp only [hclip]
      dsimp only [emit]
      refine ⟨?_, ?_, ?_, ?_, ?_, ?_, ?_, ?_, ?_⟩ <;>
        first
          | exact (startAudioClip_scalars _ cid regions).2.1
          | exact (startAudioClip_scalars _ cid regions).2.2.1
          | exact (startAudioClip_scalars _ cid regions).2.2.2.1
          | exact (startAudioClip_scalars _ cid regions).2.2.2.2.2.1
          | exact (startAudioClip_scalars _ cid regions).2.2.2.2.2.2.1
          | exact (startAudioClip_scalars _ cid regions).2.2.2.2.2.2.2.1
          | exact (startAudioClip_scalars _ cid regions).2.2.2.2.2.2.2.2.1
          | exact (startAudioClip_scalars _ cid regions).2.2.2.2.2.2.2.2.2.1
          | exact (startAudioClip_scalars _ cid regions).2.2.2.2.2.2.2.2.2.2
    | midi base notes =>
      simp only [hclip]
      dsimp only [emit]
      refine ⟨?_, ?_, ?_, ?_, ?_, ?_, ?_, ?_, ?_⟩ <;>
        first
          | exact (startMIDIClip_scalars _ cid notes).2.1
          | exact (startMIDIClip_scalars _ cid notes).2.2.1
          | exact (startMIDIClip_scalars _ cid notes).2.2.2.1
          | exact (startMIDIClip_scalars _ cid notes).2.2.2.2.2.1
          | exact (startMIDIClip_scalars _ cid notes).2.2.2.2.2.2.1
          | exact (startMIDIClip_scalars _ cid notes).2.2.2.2.2.2.2.1
          | exact (startMIDIClip_scalars _ cid notes).2.2.2.2.2.2.2.2.1
          | exact (startMIDIClip_scalars _ cid notes).2.2.2.2.2.2.2.2.2.1
          | exact (startMIDIClip_scalars _ cid notes).2.2.2.2.2.2.2.2.2.2

theorem startClip_keys (s : LauncherState) (cid : ℕ) :
    (startClip s cid).store.map Prod.fst = s.store.map Prod.fst := by
  unfold startClip
  cases hget : storeGet s.store cid with
  | none => rfl
  | some sc =>
    cases hclip : sc.clip with
    | audio base regions =>
      simp only [hclip]
      dsimp only [emit]
      rw [startAudioClip_keys]
      dsimp only
      exact keys_storeUpdate _ _ _
    | midi base notes =>
      simp only [hclip]
      dsimp only [emit]
      rw [startMIDIClip_keys]
      dsimp only
      exact keys_storeUpdate _ _ _

theorem startClip_storePres (s : LauncherState) (cid : ℕ) :
    StorePres s.store (startClip s cid).store := by
  unfold startClip
  cases hget : storeGet s.store cid with
  | none => exact storePres_refl _
  | some sc =>
    have h1 : StorePres s.store (storeUpdate s.store cid
        (fun c => { c with state := ClipState.playing })) := by
      apply storePres_storeUpdate
      intro c
      exact ⟨rfl, rfl, rfl, rfl⟩
    cases hclip : sc.clip with
    | audio base regions =>
      simp only [hclip]
      dsimp only [emit]
      exact storePres_trans h1 (startAudioClip_storePres _ cid regions)
    | midi base notes =>
      simp only [hclip]
      dsimp only [emit]
      exact storePres_trans h1 (startMIDIClip_storePres _ cid notes)

theorem startClip_store_ne (s : LauncherState) (cid : ℕ) (j : ℕ) (hj : j ≠ cid) :
    storeGet (startClip s cid).store j = storeGet s.store j := by
  unfold startClip
  cases hget : storeGet s.store cid with
  | none => rfl
  | some sc =>
    cases hclip : sc.clip with
    | audio base regions =>
      simp only [hclip]
      dsimp only [emit]
      rw [startAudioClip_store_ne _ cid regions j hj]
      dsimp only
      rw [storeGet_storeUpdate, if_neg hj]
    | midi base notes =>
      simp only [hclip]
      dsimp only [emit]
      rw [startMIDIClip_store_ne _ cid notes j hj]
      dsimp only
      rw [storeGet_storeUpdate, if_neg hj]

theorem startClip_playing (s : LauncherState) (cid : ℕ) :
    (startClip s cid).playing = s.playing ∨
      ∃ sc, storeGet s.store cid = some sc ∧
        (startClip s cid).playing = mapSet s.playing sc.trackId cid := by
  unfold startClip
  cases hget : storeGet s.store cid with
  | none => exact Or.inl rfl
  | some sc =>
    refine Or.inr ⟨sc, rfl, ?_⟩
    cases hclip : sc.clip with
    | audio base regions =>
      simp only [hclip]
      dsimp only [emit]
      exact (startAudioClip_scalars _ cid regions).1
    | midi base notes =>
      simp only [hclip]
      dsimp only [emit]
      exact (startMIDIClip_scalars _ cid notes).1

theorem noteOffFold_frame (l : List ScheduledMIDIEvent) (s : LauncherState) :
    (l.foldl (fun st ev =>
        if ev.triggered then { st with midiOut := st.midiOut ++ [(ev.note, 0, 0)] } else st)
      s).playing = s.playing ∧
    (l.foldl (fun st ev =>
        if ev.triggered then { st with midiOut := st.midiOut ++ [(ev.note, 0, 0)] } else st)
      s).triggered = s.triggered ∧
    (l.foldl (fun st ev =>
        if ev.triggered then { st with midiOut := st.midiOut ++ [(ev.note, 0, 0)] } else st)
      s).stopping = s.stopping ∧
    (l.foldl (fun st ev =>
        if ev.triggered then { st with midiOut := st.midiOut ++ [(ev.note, 0, 0)] } else st)
      s).store = s.store ∧
    (l.foldl (fun st ev =>
        if ev.triggered then { st with midiOut := st.midiOut ++ [(ev.note, 0, 0)] } else st)
      s).events = s.events ∧
    (l.foldl (fun st ev =>
        if ev.triggered then { st with midiOut := st.midiOut ++ [(ev.note, 0, 0)] } else st)
      s).nextId = s.nextId ∧
    (l.foldl (fun st ev =>
        if ev.triggered then { st with midiOut := st.midiOut ++ [(ev.note, 0, 0)] } else st)
      s).position = s.position ∧
    (l.foldl (fun st ev =>
        if ev.triggered then { st with midiOut := st.midiOut ++ [(ev.note, 0, 0)] } else st)
      s).startTime = s.startTime ∧
    (l.foldl (fun st ev =>
        if ev.triggered then { st with midiOut := st.midiOut ++ [(ev.note, 0, 0)] } else st)
      s).ctxTime = s.ctxTime ∧
    (l.foldl (fun st ev =>
        if ev.triggered then { st with midiOut := st.midiOut ++ [(ev.note, 0, 0)] } else st)
      s).bpm = s.bpm ∧
    (l.foldl (fun st ev =>
        if ev.triggered then { st with midiOut := st.midiOut ++ [(ev.note, 0, 0)] } else st)
      s).globalQuantization = s.globalQuantization ∧
    (l.foldl (fun st ev =>
        if ev.triggered then { st with midiOut := st.midiOut ++ [(ev.note, 0, 0)] } else st)
      s).sampleIds = s.sampleIds := by
  refine foldl_inv
    (fun t => t.playing = s.playing ∧ t.triggered = s.triggered ∧ t.stopping = s.stopping ∧
      t.store = s.store ∧ t.events = s.events ∧ t.nextId = s.nextId ∧
      t.position = s.position ∧ t.startTime = s.startTime ∧ t.ctxTime = s.ctxTime ∧
      t.bpm = s.bpm ∧ t.globalQuantization = s.globalQuantization ∧ t.sampleIds = s.sampleIds)
    _ l ?_ s ⟨rfl, rfl, rfl, rfl, rfl, rfl, rfl, rfl, rfl, rfl, rfl, rfl⟩
  intro x hx st hst
  dsimp only
  split
  · exact hst
  · exact hst

theorem stopScheduledClip_frame (s : LauncherState) (cid : ℕ) :
    (stopScheduledClip s cid).playing = s.playing ∧
    (stopScheduledClip s cid).triggered = s.triggered ∧
    (stopScheduledClip s cid).stopping = s.stopping ∧
    (stopScheduledClip s cid).nextId = s.nextId ∧
    (stopScheduledClip s cid).position = s.position ∧
    (stopScheduledClip s cid).startTime = s.startTime ∧
    (stopScheduledClip s cid).ctxTime = s.ctxTime ∧
    (stopScheduledClip s cid).bpm = s.bpm ∧
    (stopScheduledClip s cid).globalQuantization = s.globalQuantization ∧
    (stopScheduledClip s cid).sampleIds = s.sampleIds := by
  unfold stopScheduledClip
  cases hget : storeGet s.store cid with
  | none => exact ⟨rfl, rfl, rfl, rfl, rfl, rfl, rfl, rfl, rfl, rfl⟩
  | some sc =>
    dsimp only [emit]
    have h := noteOffFold_frame sc.midiEvents
      { s with store := (storeUpdate s.store cid
          (fun c => { c with state := ClipState.stopped, sources := [], midiEvents := [] })) }
    exact ⟨h.1, h.2.1, h.2.2.1, h.2.2.2.2.2.1, h.2.2.2.2.2.2.1, h.2.2.2.2.2.2.2.1,
      h.2.2.2.2.2.2.2.2.1, h.2.2.2.2.2.2.2.2.2.1, h.2.2.2.2.2.2.2.2.2.2.1,
      h.2.2.2.2.2.2.2.2.2.2.2⟩

theorem stopScheduledClip_keys (s : LauncherState) (cid : ℕ) :
    (stopScheduledClip s cid).store.map Prod.fst = s.store.map Prod.fst := by
  unfold stopScheduledClip
  cases hget : storeGet s.store cid with
  | none => rfl
  | some sc =>
    dsimp only [emit]
    rw [(noteOffFold_frame sc.midiEvents _).2.2.2.1]
    dsimp only
    exact keys_storeUpdate _ _ _

theorem stopScheduledClip_storePres (s : LauncherState) (cid : ℕ) :
    StorePres s.store (stopScheduledClip s cid).store := by
  unfold stopScheduledClip
  cases hget : storeGet s.store cid with
  | none => exact storePres_refl _
  | some sc =>
    dsimp only [emit]
    rw [(noteOffFold_frame sc.midiEvents _).2.2.2.1]
    dsimp only
    apply storePres_storeUpdate
    intro c
    exact ⟨rfl, rfl, rfl, rfl⟩

theorem stopScheduledClip_store_ne (s : LauncherState) (cid : ℕ) (j : ℕ) (hj : j ≠ cid) :
    storeGet (stopScheduledClip s cid).store j = storeGet s.store j := by
  unfold stopScheduledClip
  cases hget : storeGet s.store cid with
  | none => rfl
  | some sc =>
    dsimp only [emit]
    rw [(noteOffFold_frame sc.midiEvents _).2.2.2.1]
    dsimp only
    rw [storeGet_storeUpdate, if_neg hj]

theorem startedCount_congr (s t : LauncherState) (track : String)
    (d : List ClipLauncherEvent) (h : t.events = s.events ++ d)
    (hd : ∀ e ∈ d, isStartedFor track e = false) :
    startedCount t track = startedCount s track := by
  unfold startedCount
  rw [h, List.filter_append]
  have : d.filter (isStartedFor track) = [] := by
    rw [List.filter_eq_nil_iff]
    intro e he
    simp [hd e he]
  rw [this, List.append_nil]

theorem stopScheduledClip_startedCount (s : LauncherState) (cid : ℕ) (track : String) :
    startedCount (stopScheduledClip s cid) track = startedCount s track := by
  unfold stopScheduledClip
  cases hget : storeGet s.store cid with
  | none => rfl
  | some sc =>
    apply startedCount_congr _ _ _ [ClipLauncherEvent.clipStopped sc.trackId sc.slotIndex]
    · show (emit _ _).events = _
      unfold emit
      dsimp only
      rw [(noteOffFold_frame sc.midiEvents _).2.2.2.2.1]
    · intro e he
      simp only [List.mem_singleton] at he
      subst he
      rfl

theorem inv_transport (s t : LauncherState)
    (hnext : t.nextId = s.nextId)
    (hkeys : t.store.map Prod.fst = s.store.map Prod.fst)
    (hsp : StorePres s.store t.store)
    (hplay : ∀ p ∈ t.playing, p ∈ s.playing)
    (htrig : ∀ p ∈ t.triggered, p ∈ s.triggered)
    (hstop : ∀ p ∈ t.stopping, p ∈ s.stopping)
    (hnodup : (t.playing.map Prod.fst).Nodup)
    (h : Inv s) : Inv t := by
  constructor
  · intro p hp
    rw [hnext]
    have : p.1 ∈ s.store.map Prod.fst := by
      rw [← hkeys]; exact List.mem_map.mpr ⟨p, hp, rfl⟩
    rcases List.mem_map.mp this with ⟨q, hq, hq1⟩
    rw [← hq1]
    exact h.idsLt q hq
  · intro p hp
    rw [hkeys]
    exact h.playingRef p (hplay p hp)
  · intro p hp
    rw [hkeys]
    exact h.triggeredRef p (htrig p hp)
  · intro p hp
    rw [hkeys]
    exact h.stoppingRef p (hstop p hp)
  · intro p hp sc hsc
    rcases hsp p.2 sc hsc with ⟨sc0, hs0, e1, _, _, _⟩
    rw [e1]
    exact h.triggeredTrack p (htrig p hp) sc0 hs0
  · exact hnodup

theorem inv_stopScheduledClip (s : LauncherState) (cid : ℕ) (h : Inv s) :
    Inv (stopScheduledClip s cid) := by
  have hf := stopScheduledClip_frame s cid
  refine inv_transport s _ hf.2.2.2.1 (stopScheduledClip_keys s cid)
    (stopScheduledClip_storePres s cid) ?_ ?_ ?_ ?_ h
  · rw [hf.1]; exact fun p hp => hp
  · rw [hf.2.1]; exact fun p hp => hp
  · rw [hf.2.2.1]; exact fun p hp => hp
  · rw [hf.1]; exact h.playingNodup

theorem scalarFrame_refl (s : LauncherState) : ScalarFrame s s :=
  ⟨rfl, rfl, rfl, rfl, rfl, rfl, rfl⟩

theorem scalarFrame_trans {s t u : LauncherState}
    (h1 : ScalarFrame s t) (h2 : ScalarFrame t u) : ScalarFrame s u :=
  ⟨h2.1.trans h1.1, h2.2.1.trans h1.2.1, h2.2.2.1.trans h1.2.2.1,
    h2.2.2.2.1.trans h1.2.2.2.1, h2.2.2.2.2.1.trans h1.2.2.2.2.1,
    h2.2.2.2.2.2.1.trans h1.2.2.2.2.2.1, h2.2.2.2.2.2.2.trans h1.2.2.2.2.2.2⟩

theorem idsLt_of_keys (a b : List (ℕ × ScheduledClip)) (n : ℕ)
    (hk : b.map Prod.fst = a.map Prod.fst) (ha : ∀ p ∈ a, p.1 < n) :
    ∀ p ∈ b, p.1 < n := by
  intro p hp
  have : p.1 ∈ a.map Prod.fst := by rw [← hk]; exact List.mem_map.mpr ⟨p, hp, rfl⟩
  rcases List.mem_map.mp this with ⟨q, hq, hq1⟩
  rw [← hq1]
  exact ha q hq

theorem inv_maps (s : LauncherState) (pl tr stp : List (String × ℕ))
    (hpl : ∀ p ∈ pl, p ∈ s.playing) (htr : ∀ p ∈ tr, p ∈ s.triggered)
    (hstp : ∀ p ∈ stp, p ∈ s.stopping) (hnd : (pl.map Prod.fst).Nodup)
    (h : Inv s) : Inv { s with playing := pl, triggered := tr, stopping := stp } := by
  constructor
  · exact h.idsLt
  · intro p hp
    exact h.playingRef p (hpl p hp)
  · intro p hp
    exact h.triggeredRef p (htr p hp)
  · intro p hp
    exact h.stoppingRef p (hstp p hp)
  · intro p hp sc hsc
    exact h.triggeredTrack p (htr p hp) sc hsc
  · exact hnd

theorem inv_markStop (s : LauncherState) (track : String) (pid : ℕ)
    (f : ScheduledClip → ScheduledClip)
    (hf : ∀ c, (f c).trackId = c.trackId)
    (hp : mapGet s.playing track = some pid) (h : Inv s) :
    Inv { s with store := storeUpdate s.store pid f,
                 stopping := mapSet s.stopping track pid } := by
  constructor
  · exact idsLt_of_keys s.store _ s.nextId (keys_storeUpdate _ _ _) h.idsLt
  · intro p hp2
    rw [keys_storeUpdate]
    exact h.playingRef p hp2
  · intro p hp2
    rw [keys_storeUpdate]
    exact h.triggeredRef p hp2
  · intro p hp2
    rw [keys_storeUpdate]
    rcases mem_mapSet _ _ _ _ hp2 with rfl | hmem
    · exact h.playingRef (track, pid) (mapGet_some_mem _ _ _ hp)
    · exact h.stoppingRef p hmem
  · intro p hp2 sc hsc
    rw [storeGet_storeUpdate] at hsc
    by_cases hj : p.2 = pid
    · rw [if_pos hj] at hsc
      cases hget : storeGet s.store p.2 with
      | none => rw [hget] at hsc; exact Option.noConfusion hsc
      | some sc0 =>
        rw [hget] at hsc
        have : f sc0 = sc := Option.some.inj hsc
        rw [← this, hf sc0]
        exact h.triggeredTrack p hp2 sc0 hget
    · rw [if_neg hj] at hsc
      exact h.triggeredTrack p hp2 sc hsc
  · exact h.playingNodup

theorem stopClip_eff (s : LauncherState) (track : String) (q : LaunchQuantization) :
    ScalarFrame s (stopClip s track q) ∧
    (stopClip s track q).store.map Prod.fst = s.store.map Prod.fst ∧
    StorePres s.store (stopClip s track q).store ∧
    (∀ t', startedCount (stopClip s track q) t' = startedCount s t') ∧
    (∀ p ∈ (stopClip s track q).playing, p ∈ s.playing) ∧
    (stopClip s track q).triggered = mapDelete s.triggered track ∧
    (Inv s → Inv (stopClip s track q)) := by
  unfold stopClip
  dsimp only
  generalize (if q = LaunchQuantization.global then s.globalQuantization else q) = qr
  cases hp : mapGet s.playing track with
  | none =>
    refine ⟨scalarFrame_refl _, rfl, storePres_refl _, fun t' => rfl, fun p hp2 => hp2, rfl, ?_⟩
    intro h
    exact inv_maps s s.playing (mapDelete s.triggered track) s.stopping
      (fun p hp2 => hp2) (fun p hp2 => (mem_mapDelete _ _ _ hp2).1) (fun p hp2 => hp2)
      h.playingNodup h
  | some pid =>
    dsimp only
    set S1 : LauncherState :=
      { s with
        store := storeUpdate s.store pid (fun c =>
          { c with state := ClipState.stopping,
                   stopTime := some (getNextQuantizedBeat (getPos s) qr s.bpm) })
        stopping := mapSet s.stopping track pid } with hS1
    have hS1frame : ScalarFrame s S1 := ⟨rfl, rfl, rfl, rfl, rfl, rfl, rfl⟩
    have hS1keys : S1.store.map Prod.fst = s.store.map Prod.fst := by
      rw [hS1]
      dsimp only
      exact keys_storeUpdate _ _ _
    have hS1pres : StorePres s.store S1.store := by
      rw [hS1]
      dsimp only
      apply storePres_storeUpdate
      intro c
      exact ⟨rfl, rfl, rfl, rfl⟩
    have hS1inv : Inv s → Inv S1 := by
      intro h
      rw [hS1]
      refine inv_markStop s track pid _ ?_ hp h
      intro c
      rfl
    split
    · set S2 : LauncherState := stopScheduledClip S1 pid with hS2
      have hf := stopScheduledClip_frame S1 pid
      refine ⟨?_, ?_, ?_, ?_, ?_, ?_, ?_⟩
      · exact scalarFrame_trans hS1frame
          ⟨hf.2.2.2.1, hf.2.2.2.2.1, hf.2.2.2.2.2.1, hf.2.2.2.2.2.2.1,
            hf.2.2.2.2.2.2.2.1, hf.2.2.2.2.2.2.2.2.1, hf.2.2.2.2.2.2.2.2.2⟩
      · show S2.store.map Prod.fst = s.store.map Prod.fst
        rw [hS2, stopScheduledClip_keys, hS1keys]
      · show StorePres s.store S2.store
        exact storePres_trans hS1pres (stopScheduledClip_storePres S1 pid)
      · intro t'
        show startedCount S2 t' = startedCount s t'
        exact stopScheduledClip_startedCount S1 pid t'
      · intro p hp2
        have h1 := (mem_mapDelete _ _ _ hp2).1
        rw [hf.1] at h1
        exact h1
      · show mapDelete S2.triggered track = mapDelete s.triggered track
        rw [hf.2.1]
      · intro h
        have h2 : Inv S2 := inv_stopScheduledClip S1 pid (hS1inv h)
        exact inv_maps S2 (mapDelete S2.playing track) (mapDelete S2.triggered track)
          (mapDelete S2.stopping track)
          (fun p hp2 => (mem_mapDelete _ _ _ hp2).1)
          (fun p hp2 => (mem_mapDelete _ _ _ hp2).1)
          (fun p hp2 => (mem_mapDelete _ _ _ hp2).1)
          (nodup_keys_mapDelete _ _ h2.playingNodup) h2
    · refine ⟨hS1frame, hS1keys, hS1pres, fun t' => rfl, fun p hp2 => hp2, rfl, ?_⟩
      intro h
      have h1 := hS1inv h
      exact inv_maps S1 S1.playing (mapDelete S1.triggered track) S1.stopping
        (fun p hp2 => hp2) (fun p hp2 => (mem_mapDelete _ _ _ hp2).1) (fun p hp2 => hp2)
        h1.playingNodup h1

theorem processMIDIEvents_eff (s : LauncherState) (cid : ℕ) (now : ℚ) :
    ScalarFrame s (processMIDIEvents s cid now) ∧
    (processMIDIEvents s cid now).playing = s.playing ∧
    (processMIDIEvents s cid now).triggered = s.triggered ∧
    (processMIDIEvents s cid now).stopping = s.stopping ∧
    (processMIDIEvents s cid now).events = s.events ∧
    (processMIDIEvents s cid now).store.map Prod.fst = s.store.map Prod.fst ∧
    StorePres s.store (processMIDIEvents s cid now).store ∧
    (Inv s → Inv (processMIDIEvents s cid now)) := by
  unfold processMIDIEvents
  cases hget : storeGet s.store cid with
  | none =>
    exact ⟨scalarFrame_refl _, rfl, rfl, rfl, rfl, rfl, storePres_refl _, fun h => h⟩
  | some sc =>
    dsimp only
    refine ⟨⟨rfl, rfl, rfl, rfl, rfl, rfl, rfl⟩, rfl, rfl, rfl, rfl, ?_, ?_, ?_⟩
    · exact keys_storeUpdate _ _ _
    · apply storePres_storeUpdate
      intro c
      exact ⟨rfl, rfl, rfl, rfl⟩
    · intro h
      refine inv_transport s _ rfl ?_ ?_ (fun p hp => hp)
        (fun p hp => hp) (fun p hp => hp) h.playingNodup h
      · dsimp only
        exact keys_storeUpdate _ _ _
      · dsimp only
        apply storePres_storeUpdate
        intro c
        exact ⟨rfl, rfl, rfl, rfl⟩

theorem rescheduleMIDI_eff (s : LauncherState) (cid : ℕ) (notes : List MIDINoteData) :
    ScalarFrame s (rescheduleMIDI s cid notes) ∧
    (rescheduleMIDI s cid notes).playing = s.playing ∧
    (rescheduleMIDI s cid notes).triggered = s.triggered ∧
    (rescheduleMIDI s cid notes).stopping = s.stopping ∧
    (rescheduleMIDI s cid notes).events = s.events ∧
    (rescheduleMIDI s cid notes).store.map Prod.fst = s.store.map Prod.fst ∧
    StorePres s.store (rescheduleMIDI s cid notes).store ∧
    (Inv s → Inv (rescheduleMIDI s cid notes)) := by
  unfold rescheduleMIDI
  dsimp only
  refine ⟨⟨rfl, rfl, rfl, rfl, rfl, rfl, rfl⟩, rfl, rfl, rfl, rfl, ?_, ?_, ?_⟩
  · exact keys_storeUpdate _ _ _
  · apply storePres_storeUpdate
    intro c
    exact ⟨rfl, rfl, rfl, rfl⟩
  · intro h
    refine inv_transport s _ rfl ?_ ?_ (fun p hp => hp)
      (fun p hp => hp) (fun p hp => hp) h.playingNodup h
    · dsimp only
      exact keys_storeUpdate _ _ _
    · dsimp only
      apply storePres_storeUpdate
      intro c
      exact ⟨rfl, rfl, rfl, rfl⟩

theorem processFollowAction_eff (s : LauncherState) (cid : ℕ) (fa : FollowActionPair) :
    ScalarFrame s (processFollowAction s cid fa) ∧
    (processFollowAction s cid fa).store.map Prod.fst = s.store.map Prod.fst ∧
    StorePres s.store (processFollowAction s cid fa).store ∧
    (∀ t', startedCount (processFollowAction s cid fa) t' = startedCount s t') ∧
    (∀ p ∈ (processFollowAction s cid fa).playing, p ∈ s.playing) ∧
    (∀ p ∈ (processFollowAction s cid fa).triggered, p ∈ s.triggered) ∧
    (Inv s → Inv (processFollowAction s cid fa)) := by
  unfold processFollowAction
  cases hget : storeGet s.store cid with
  | none =>
    exact ⟨scalarFrame_refl _, rfl, storePres_refl _, fun t' => rfl, fun p hp => hp,
      fun p hp => hp, fun h => h⟩
  | some sc =>
    dsimp only
    generalize (if s.rng s.rngIdx ≤ fa.actionA.chance then fa.actionA else fa.actionB) = act
    split
    · exact ⟨⟨rfl, rfl, rfl, rfl, rfl, rfl, rfl⟩, rfl, storePres_refl _, fun t' => rfl,
        fun p hp => hp, fun p hp => hp,
        fun h => ⟨h.idsLt, h.playingRef, h.triggeredRef, h.stoppingRef,
          h.triggeredTrack, h.playingNodup⟩⟩
    · cases hact : act.action <;> simp only [hact] <;>
        first
          | exact ⟨⟨rfl, rfl, rfl, rfl, rfl, rfl, rfl⟩, rfl, storePres_refl _,
              fun t' => startedCount_congr s _ t'
                [ClipLauncherEvent.followActionFired sc.trackId sc.slotIndex act]
                rfl (by intro e he; simp only [List.mem_singleton] at he; subst he; rfl),
              fun p hp => hp, fun p hp => hp,
              fun h => ⟨h.idsLt, h.playingRef, h.triggeredRef, h.stoppingRef,
                h.triggeredTrack, h.playingNodup⟩⟩
          | (refine ⟨?_, ?_, ?_, ?_, ?_, ?_, ?_⟩
             · exact (stopClip_eff _ sc.trackId LaunchQuantization.none).1
             · exact (stopClip_eff _ sc.trackId LaunchQuantization.none).2.1
             · exact (stopClip_eff _ sc.trackId LaunchQuantization.none).2.2.1
             · intro t'
               rw [(stopClip_eff (emit { s with rngIdx := s.rngIdx + 1 }
                     (ClipLauncherEvent.followActionFired sc.trackId sc.slotIndex act))
                   sc.trackId LaunchQuantization.none).2.2.2.1 t']
               exact startedCount_congr s _ t'
                 [ClipLauncherEvent.followActionFired sc.trackId sc.slotIndex act]
                 rfl (by intro e he; simp only [List.mem_singleton] at he; subst he; rfl)
             · exact (stopClip_eff _ sc.trackId LaunchQuantization.none).2.2.2.2.1
             · intro p hp
               rw [(stopClip_eff (emit { s with rngIdx := s.rngIdx + 1 }
                     (ClipLauncherEvent.followActionFired sc.trackId sc.slotIndex act))
                   sc.trackId LaunchQuantization.none).2.2.2.2.2.1] at hp
               exact (mem_mapDelete _ _ _ hp).1
             · intro h
               exact (stopClip_eff _ sc.trackId LaunchQuantization.none).2.2.2.2.2.2
                 ⟨h.idsLt, h.playingRef, h.triggeredRef, h.stoppingRef,
                   h.triggeredTrack, h.playingNodup⟩)

theorem startClip_events (s : LauncherState) (cid : ℕ) :
    (startClip s cid).events = s.events ∨
      ∃ sc, storeGet s.store cid = some sc ∧
        (startClip s cid).events =
          s.events ++ [ClipLauncherEvent.clipStarted sc.trackId sc.slotIndex] := by
  unfold startClip
  cases hget : storeGet s.store cid with
  | none => exact Or.inl rfl
  | some sc =>
    refine Or.inr ⟨sc, rfl, ?_⟩
    cases hclip : sc.clip with
    | audio base regions =>
      simp only [hclip]
      dsimp only [emit]
      rw [(startAudioClip_scalars _ cid regions).2.2.2.2.1]
    | midi base notes =>
      simp only [hclip]
      dsimp only [emit]
      rw [(startMIDIClip_scalars _ cid notes).2.2.2.2.1]

theorem effPack_refl (s : LauncherState) : EffPack s s :=
  ⟨scalarFrame_refl s, rfl, storePres_refl _, fun _ => rfl, fun _ hp => hp,
    fun _ hp => hp, fun h => h⟩

theorem effPack_trans {s t u : LauncherState} (h1 : EffPack s t) (h2 : EffPack t u) :
    EffPack s u :=
  ⟨scalarFrame_trans h1.1 h2.1, h2.2.1.trans h1.2.1,
    storePres_trans h1.2.2.1 h2.2.2.1,
    fun t' => (h2.2.2.2.1 t').trans (h1.2.2.2.1 t'),
    fun p hp => h1.2.2.2.2.1 p (h2.2.2.2.2.1 p hp),
    fun p hp => h1.2.2.2.2.2.1 p (h2.2.2.2.2.2.1 p hp),
    fun h => h2.2.2.2.2.2.2 (h1.2.2.2.2.2.2 h)⟩

theorem effPack_emit_other (s : LauncherState) (ev : ClipLauncherEvent)
    (hev : ∀ t', isStartedFor t' ev = false) : EffPack s (emit s ev) :=
  ⟨⟨rfl, rfl, rfl, rfl, rfl, rfl, rfl⟩, rfl, storePres_refl _,
    fun t' => startedCount_congr s (emit s ev) t' [ev] rfl
      (by intro e he; simp only [List.mem_singleton] at he; subst he; exact hev t'),
    fun p hp => hp, fun p hp => hp,
    fun h => ⟨h.idsLt, h.playingRef, h.triggeredRef, h.stoppingRef,
      h.triggeredTrack, h.playingNodup⟩⟩

theorem effPack_storeUpdate (s : LauncherState) (cid : ℕ) (f : ScheduledClip → ScheduledClip)
    (hf : ∀ c, (f c).trackId = c.trackId ∧ (f c).slotIndex = c.slotIndex ∧
      (f c).launchTime = c.launchTime ∧ (f c).clip = c.clip) :
    EffPack s { s with store := storeUpdate s.store cid f } := by
  refine ⟨⟨rfl, rfl, rfl, rfl, rfl, rfl, rfl⟩, ?_, ?_, fun t' => rfl,
    fun p hp => hp, fun p hp => hp, ?_⟩
  · exact keys_storeUpdate _ _ _
  · exact storePres_storeUpdate _ _ _ hf
  · intro h
    refine inv_transport s _ rfl ?_ ?_ (fun p hp => hp) (fun p hp => hp)
      (fun p hp => hp) h.playingNodup h
    · exact keys_storeUpdate _ _ _
    · exact storePres_storeUpdate _ _ _ hf

theorem effPack_stopScheduledClip (s : LauncherState) (cid : ℕ) :
    EffPack s (stopScheduledClip s cid) := by
  have hf := stopScheduledClip_frame s cid
  refine ⟨⟨hf.2.2.2.1, hf.2.2.2.2.1, hf.2.2.2.2.2.1, hf.2.2.2.2.2.2.1,
      hf.2.2.2.2.2.2.2.1, hf.2.2.2.2.2.2.2.2.1, hf.2.2.2.2.2.2.2.2.2⟩,
    stopScheduledClip_keys s cid, stopScheduledClip_storePres s cid,
    fun t' => stopScheduledClip_startedCount s cid t', ?_, ?_,
    fun h => inv_stopScheduledClip s cid h⟩
  · intro p hp
    rw [hf.1] at hp
    exact hp
  · intro p hp
    rw [hf.2.1] at hp
    exact hp

theorem effPack_stopClip (s : LauncherState) (track : String) (q : LaunchQuantization) :
    EffPack s (stopClip s track q) := by
  have h := stopClip_eff s track q
  refine ⟨h.1, h.2.1, h.2.2.1, h.2.2.2.1, h.2.2.2.2.1, ?_, h.2.2.2.2.2.2⟩
  intro p hp
  rw [h.2.2.2.2.2.1] at hp
  exact (mem_mapDelete _ _ _ hp).1

theorem effPack_processFollowAction (s : LauncherState) (cid : ℕ) (fa : FollowActionPair) :
    EffPack s (processFollowAction s cid fa) := by
  have h := processFollowAction_eff s cid fa
  exact ⟨h.1, h.2.1, h.2.2.1, h.2.2.2.1, h.2.2.2.2.1, h.2.2.2.2.2.1, h.2.2.2.2.2.2⟩

theorem effPack_processMIDIEvents (s : LauncherState) (cid : ℕ) (now : ℚ) :
    EffPack s (processMIDIEvents s cid now) := by
  have h := processMIDIEvents_eff s cid now
  refine ⟨h.1, h.2.2.2.2.2.1, h.2.2.2.2.2.2.1, ?_, ?_, ?_, h.2.2.2.2.2.2.2⟩
  · intro t'
    unfold startedCount
    rw [h.2.2.2.2.1]
  · intro p hp
    rw [h.2.1] at hp
    exact hp
  · intro p hp
    rw [h.2.2.1] at hp
    exact hp

theorem effPack_rescheduleMIDI (s : LauncherState) (cid : ℕ) (notes : List MIDINoteData) :
    EffPack s (rescheduleMIDI s cid notes) := by
  have h := rescheduleMIDI_eff s cid notes
  refine ⟨h.1, h.2.2.2.2.2.1, h.2.2.2.2.2.2.1, ?_, ?_, ?_, h.2.2.2.2.2.2.2⟩
  · intro t'
    unfold startedCount
    rw [h.2.2.2.2.1]
  · intro p hp
    rw [h.2.1] at hp
    exact hp
  · intro p hp
    rw [h.2.2.1] at hp
    exact hp

theorem effPack_processPlayingLoop (s : LauncherState) (cid : ℕ) (pos : Beats) :
    EffPack s (processPlayingLoop s cid pos) := by
  unfold processPlayingLoop
  cases hget : storeGet s.store cid with
  | none => exact effPack_refl s
  | some sc =>
    dsimp only
    split
    · split
      · have h1 : EffPack s { s with store := (storeUpdate s.store cid
            (fun c => { c with loopCount := c.loopCount + 1 })) } :=
          effPack_storeUpdate s cid _ (fun c => ⟨rfl, rfl, rfl, rfl⟩)
        have h2 : EffPack s (emit { s with store := (storeUpdate s.store cid
            (fun c => { c with loopCount := c.loopCount + 1 })) }
              (ClipLauncherEvent.clipLooped sc.trackId sc.slotIndex (sc.loopCount + 1))) :=
          effPack_trans h1 (effPack_emit_other _ _ (fun t' => rfl))
        cases hclip : sc.clip with
        | audio base regions =>
          simp only [hclip, Clip.base]
          cases hfa : base.followAction with
          | some fa =>
            exact effPack_trans h2 (effPack_processFollowAction _ cid fa)
          | none =>
            exact h2
        | midi base notes =>
          simp only [hclip, Clip.base]
          cases hfa : base.followAction with
          | some fa =>
            exact effPack_trans (effPack_trans h2 (effPack_processFollowAction _ cid fa))
              (effPack_rescheduleMIDI _ cid notes)
          | none =>
            exact effPack_trans h2 (effPack_rescheduleMIDI _ cid notes)
      · exact effPack_refl s
    · split
      · have h1 := effPack_stopScheduledClip s cid
        refine ⟨h1.1, h1.2.1, h1.2.2.1, h1.2.2.2.1, ?_, h1.2.2.2.2.2.1, ?_⟩
        · intro p hp
          exact h1.2.2.2.2.1 p (mem_mapDelete _ _ _ hp).1
        · intro h
          have h2 : Inv (stopScheduledClip s cid) := h1.2.2.2.2.2.2 h
          exact inv_maps (stopScheduledClip s cid)
            (mapDelete (stopScheduledClip s cid).playing sc.trackId)
            (stopScheduledClip s cid).triggered (stopScheduledClip s cid).stopping
            (fun p hp => (mem_mapDelete _ _ _ hp).1) (fun p hp => hp) (fun p hp => hp)
            (nodup_keys_mapDelete _ _ h2.playingNodup) h2
      · exact effPack_refl s

theorem effPack_processPlayingClip (s : LauncherState) (cid : ℕ) (pos : Beats) (now : ℚ) :
    EffPack s (processPlayingClip s cid pos now) := by
  unfold processPlayingClip
  cases hget : storeGet s.store cid with
  | none => exact effPack_refl s
  | some sc0 =>
    dsimp only
    cases hclip : sc0.clip with
    | audio base regions =>
      simp only [hclip]
      exact effPack_processPlayingLoop s cid pos
    | midi base notes =>
      simp only [hclip]
      exact effPack_trans (effPack_processMIDIEvents s cid now)
        (effPack_processPlayingLoop _ cid pos)

theorem inv_claimPlaying (s : LauncherState) (track : String) (cid : ℕ)
    (f : ScheduledClip → ScheduledClip)
    (hf : ∀ c, (f c).trackId = c.trackId ∧ (f c).slotIndex = c.slotIndex ∧
      (f c).launchTime = c.launchTime ∧ (f c).clip = c.clip)
    (hcid : cid ∈ s.store.map Prod.fst) (h : Inv s) :
    Inv { s with store := storeUpdate s.store cid f,
                 playing := mapSet s.playing track cid } := by
  constructor
  · exact idsLt_of_keys s.store _ s.nextId (keys_storeUpdate _ _ _) h.idsLt
  · intro p hp
    rcases mem_mapSet _ _ _ _ hp with rfl | hmem
    · show cid ∈ (storeUpdate s.store cid f).map Prod.fst
      rw [keys_storeUpdate]
      exact hcid
    · show p.2 ∈ (storeUpdate s.store cid f).map Prod.fst
      rw [keys_storeUpdate]
      exact h.playingRef p hmem
  · intro p hp
    show p.2 ∈ (storeUpdate s.store cid f).map Prod.fst
    rw [keys_storeUpdate]
    exact h.triggeredRef p hp
  · intro p hp
    show p.2 ∈ (storeUpdate s.store cid f).map Prod.fst
    rw [keys_storeUpdate]
    exact h.stoppingRef p hp
  · intro p hp sc hsc
    rcases storePres_storeUpdate s.store cid f hf p.2 sc hsc with ⟨sc0, hs0, e1, _, _, _⟩
    rw [e1]
    exact h.triggeredTrack p hp sc0 hs0
  · exact nodup_keys_mapSet _ _ _ h.playingNodup

theorem inv_startClip (s : LauncherState) (cid : ℕ) (h : Inv s) : Inv (startClip s cid) := by
  unfold startClip
  cases hget : storeGet s.store cid with
  | none => exact h
  | some sc =>
    dsimp only
    have h2 : Inv { s with
        store := storeUpdate s.store cid (fun c => { c with state := ClipState.playing }),
        playing := mapSet s.playing sc.trackId cid } :=
      inv_claimPlaying s sc.trackId cid _ (fun c => ⟨rfl, rfl, rfl, rfl⟩)
        (storeGet_some_mem_keys s.store cid sc hget) h
    cases hclip : sc.clip with
    | audio base regions =>
      simp only [hclip]
      have hsc := startAudioClip_scalars { s with
          store := storeUpdate s.store cid (fun c => { c with state := ClipState.playing }),
          playing := mapSet s.playing sc.trackId cid } cid regions
      have h3 : Inv (startAudioClip { s with
          store := storeUpdate s.store cid (fun c => { c with state := ClipState.playing }),
          playing := mapSet s.playing sc.trackId cid } cid regions) := by
        refine inv_transport _ _ hsc.2.2.2.1 (startAudioClip_keys _ cid regions)
          (startAudioClip_storePres _ cid regions) ?_ ?_ ?_ ?_ h2
        · rw [hsc.1]; exact fun p hp => hp
        · rw [hsc.2.1]; exact fun p hp => hp
        · rw [hsc.2.2.1]; exact fun p hp => hp
        · rw [hsc.1]; exact h2.playingNodup
      exact ⟨h3.idsLt, h3.playingRef, h3.triggeredRef, h3.stoppingRef,
        h3.triggeredTrack, h3.playingNodup⟩
    | midi base notes =>
      simp only [hclip]
      have hsc := startMIDIClip_scalars { s with
          store := storeUpdate s.store cid (fun c => { c with state := ClipState.playing }),
          playing := mapSet s.playing sc.trackId cid } cid notes
      have h3 : Inv (startMIDIClip { s with
          store := storeUpdate s.store cid (fun c => { c with state := ClipState.playing }),
          playing := mapSet s.playing sc.trackId cid } cid notes) := by
        refine inv_transport _ _ hsc.2.2.2.1 (startMIDIClip_keys _ cid notes)
          (startMIDIClip_storePres _ cid notes) ?_ ?_ ?_ ?_ h2
        · rw [hsc.1]; exact fun p hp => hp
        · rw [hsc.2.1]; exact fun p hp => hp
        · rw [hsc.2.2.1]; exact fun p hp => hp
        · rw [hsc.1]; exact h2.playingNodup
      exact ⟨h3.idsLt, h3.playingRef, h3.triggeredRef, h3.stoppingRef,
        h3.triggeredTrack, h3.playingNodup⟩

theorem tickTriggeredPhase_inv (s : LauncherState) (pos : Beats) (h : Inv s) :
    Inv (tickTriggeredPhase s pos) := by
  unfold tickTriggeredPhase
  refine foldl_inv Inv _ s.triggered ?_ s h
  intro x hx st hst
  dsimp only
  cases hg : storeGet st.store x.2 with
  | none => exact hst
  | some sc =>
    dsimp only
    split
    · have hinv := inv_startClip st x.2 hst
      exact inv_maps (startClip st x.2) (startClip st x.2).playing
        (mapDelete (startClip st x.2).triggered x.1) (startClip st x.2).stopping
        (fun p hp => hp) (fun p hp => (mem_mapDelete _ _ _ hp).1) (fun p hp => hp)
        hinv.playingNodup hinv
    · exact hst

theorem tickTriggeredPhase_pack (s : LauncherState) (track : String) (pos : Beats)
    (h : Inv s) (hne : ∀ p ∈ s.triggered, ¬ p.1 = track) :
    Inv (tickTriggeredPhase s pos) ∧
    StorePres s.store (tickTriggeredPhase s pos).store ∧
    (∀ p ∈ (tickTriggeredPhase s pos).triggered, p ∈ s.triggered) ∧
    startedCount (tickTriggeredPhase s pos) track = startedCount s track := by
  unfold tickTriggeredPhase
  refine foldl_inv (fun st => Inv st ∧ StorePres s.store st.store ∧
      (∀ p ∈ st.triggered, p ∈ s.triggered) ∧
      startedCount st track = startedCount s track) _ s.triggered ?_ s
    ⟨h, storePres_refl _, fun p hp => hp, rfl⟩
  intro x hx st hst
  dsimp only
  cases hg : storeGet st.store x.2 with
  | none => exact hst
  | some sc =>
    dsimp only
    split
    · have hinv := inv_startClip st x.2 hst.1
      refine ⟨?_, ?_, ?_, ?_⟩
      · exact inv_maps (startClip st x.2) (startClip st x.2).playing
          (mapDelete (startClip st x.2).triggered x.1) (startClip st x.2).stopping
          (fun p hp => hp) (fun p hp => (mem_mapDelete _ _ _ hp).1) (fun p hp => hp)
          hinv.playingNodup hinv
      · exact storePres_trans hst.2.1 (startClip_storePres st x.2)
      · intro p hp
        have hp2 := (mem_mapDelete _ _ _ hp).1
        rw [(startClip_scalars st x.2).1] at hp2
        exact hst.2.2.1 p hp2
      · show startedCount (startClip st x.2) track = startedCount s track
        refine Eq.trans ?_ hst.2.2.2
        rcases startClip_events st x.2 with hsame | ⟨sc2, hg2, happ⟩
        · unfold startedCount
          rw [hsame]
        · rw [hg] at hg2
          have hsceq : sc = sc2 := Option.some.inj hg2
          rcases hst.2.1 x.2 sc hg with ⟨sc0, hs0, e1, _, _, _⟩
          have htr : sc.trackId = x.1 := e1.trans (h.triggeredTrack x hx sc0 hs0)
          have hne2 : ¬ sc2.trackId = track := by
            rw [← hsceq, htr]
            exact hne x hx
          refine startedCount_congr st (startClip st x.2) track
            [ClipLauncherEvent.clipStarted sc2.trackId sc2.slotIndex] happ ?_
          intro e he
          simp only [List.mem_singleton] at he
          subst he
          simp [isStartedFor, hne2]
    · exact hst

theorem tickStoppingPhase_eff (s : LauncherState) (pos : Beats) :
    EffPack s (tickStoppingPhase s pos) := by
  unfold tickStoppingPhase
  refine foldl_inv (EffPack s) _ s.stopping ?_ s (effPack_refl s)
  intro x hx st hst
  refine effPack_trans hst ?_
  dsimp only
  cases hg : storeGet st.store x.2 with
  | none => exact effPack_refl st
  | some sc =>
    dsimp only
    cases hstp : sc.stopTime with
    | none => exact effPack_refl st
    | some t =>
      dsimp only
      split
      · have h1 := effPack_stopScheduledClip st x.2
        refine ⟨h1.1, h1.2.1, h1.2.2.1, h1.2.2.2.1, ?_, h1.2.2.2.2.2.1, ?_⟩
        · intro p hp
          exact h1.2.2.2.2.1 p (mem_mapDelete _ _ _ hp).1
        · intro hinv
          have h2 := h1.2.2.2.2.2.2 hinv
          exact inv_maps (stopScheduledClip st x.2)
            (mapDelete (stopScheduledClip st x.2).playing x.1)
            (stopScheduledClip st x.2).triggered
            (mapDelete (stopScheduledClip st x.2).stopping x.1)
            (fun p hp => (mem_mapDelete _ _ _ hp).1) (fun p hp => hp)
            (fun p hp => (mem_mapDelete _ _ _ hp).1)
            (nodup_keys_mapDelete _ _ h2.playingNodup) h2
      · exact effPack_refl st

theorem tickPlayingPhase_eff (s : LauncherState) (pos : Beats) (now : ℚ) :
    EffPack s (tickPlayingPhase s pos now) := by
  unfold tickPlayingPhase
  refine foldl_inv (EffPack s) _ s.playing ?_ s (effPack_refl s)
  intro x hx st hst
  exact effPack_trans hst (effPack_processPlayingClip st x.2 pos now)

theorem inv_tick (s : LauncherState) (h : Inv s) : Inv (tick s) := by
  unfold tick
  have h1 : Inv (tickTriggeredPhase s (getPos s)) := tickTriggeredPhase_inv s (getPos s) h
  have h2 := (tickStoppingPhase_eff (tickTriggeredPhase s (getPos s)) (getPos s)).2.2.2.2.2.2 h1
  exact (tickPlayingPhase_eff _ (getPos s) s.ctxTime).2.2.2.2.2.2 h2

theorem tick_no_start (s : LauncherState) (track : String) (h : Inv s)
    (ht : mapGet s.triggered track = Option.none) :
    Inv (tick s) ∧ mapGet (tick s).triggered track = Option.none ∧
    startedCount (tick s) track = startedCount s track := by
  have hne := (mapGet_eq_none_iff s.triggered track).mp ht
  have H1 := tickTriggeredPhase_pack s track (getPos s) h hne
  have H2 := tickStoppingPhase_eff (tickTriggeredPhase s (getPos s)) (getPos s)
  have H3 := tickPlayingPhase_eff
    (tickStoppingPhase (tickTriggeredPhase s (getPos s)) (getPos s)) (getPos s) s.ctxTime
  unfold tick
  refine ⟨?_, ?_, ?_⟩
  · exact H3.2.2.2.2.2.2 (H2.2.2.2.2.2.2 H1.1)
  · rw [mapGet_eq_none_iff]
    intro p hp
    exact hne p (H1.2.2.1 p (H2.2.2.2.2.2.1 p (H3.2.2.2.2.2.1 p hp)))
  · rw [H3.2.2.2.1 track, H2.2.2.2.1 track, H1.2.2.2]

theorem tickN_no_start (n : ℕ) (s : LauncherState) (track : String) (h : Inv s)
    (ht : mapGet s.triggered track = Option.none) :
    Inv (tickN n s) ∧ mapGet (tickN n s).triggered track = Option.none ∧
    startedCount (tickN n s) track = startedCount s track := by
  induction n generalizing s with
  | zero => exact ⟨h, ht, rfl⟩
  | succ n ih =>
    have h1 := tick_no_start s track h ht
    have h2 := ih (tick s) h1.1 h1.2.1
    exact ⟨h2.1, h2.2.1, h2.2.2.trans h1.2.2⟩

theorem storeGet_fresh_of_inv (s : LauncherState) (sc : ScheduledClip) (h : Inv s) :
    storeGet (storeSet s.store s.nextId sc) s.nextId = some sc :=
  storeGet_storeSet_fresh _ _ _
    (fun p hp hpe => absurd (h.idsLt p hp) (by rw [hpe]; exact lt_irrefl _))

theorem inv_addScheduled (s : LauncherState) (sc : ScheduledClip) (h : Inv s) :
    Inv { s with nextId := s.nextId + 1, store := storeSet s.store s.nextId sc } := by
  constructor
  · intro p hp
    rcases mem_storeSet _ _ _ p hp with rfl | hmem
    · exact Nat.lt_succ_self _
    · exact Nat.lt_succ_of_lt (h.idsLt p hmem)
  · intro p hp
    exact keys_storeSet_mono _ _ _ _ (h.playingRef p hp)
  · intro p hp
    exact keys_storeSet_mono _ _ _ _ (h.triggeredRef p hp)
  · intro p hp
    exact keys_storeSet_mono _ _ _ _ (h.stoppingRef p hp)
  · intro p hp sc2 hsc2
    have hlt : p.2 < s.nextId := by
      rcases List.mem_map.mp (h.triggeredRef p hp) with ⟨p2, hp2, he⟩
      rw [← he]
      exact h.idsLt p2 hp2
    rw [storeGet_storeSet_ne _ _ _ p.2 (Nat.ne_of_lt hlt)] at hsc2
    exact h.triggeredTrack p hp sc2 hsc2
  · exact h.playingNodup

theorem inv_addTriggered (s : LauncherState) (track : String) (nid : ℕ)
    (hmem : nid ∈ s.store.map Prod.fst)
    (htrack : ∀ sc, storeGet s.store nid = some sc → sc.trackId = track)
    (h : Inv s) : Inv { s with triggered := mapSet s.triggered track nid } := by
  constructor
  · exact h.idsLt
  · exact h.playingRef
  · intro p hp
    rcases mem_mapSet _ _ _ _ hp with rfl | hmem2
    · exact hmem
    · exact h.triggeredRef p hmem2
  · exact h.stoppingRef
  · intro p hp sc hsc
    rcases mem_mapSet _ _ _ _ hp with rfl | hmem2
    · exact htrack sc hsc
    · exact h.triggeredTrack p hmem2 sc hsc
  · exact h.playingNodup

theorem inv_launchClip (s : LauncherState) (trackId : String) (slotIndex : ℕ) (clip : Clip)
    (q : LaunchQuantization) (h : Inv s) : Inv (launchClip s trackId slotIndex clip q) := by
  unfold launchClip
  dsimp only
  generalize (if q = LaunchQuantization.global then s.globalQuantization else q) = qr
  cases hp : mapGet s.playing trackId with
  | none =>
    dsimp only
    have hbody : Inv { s with nextId := s.nextId + 1, store := (storeSet s.store s.nextId { id := s.nextId, trackId := trackId, slotIndex := slotIndex, clip := clip, state := ClipState.triggered, launchTime := getNextQuantizedBeat (getPos s) qr s.bpm, stopTime := Option.none, loopCount := 0, sources := [], midiEvents := [] }), triggered := mapSet s.triggered trackId s.nextId } := by
      refine inv_addTriggered { s with nextId := s.nextId + 1, store := (storeSet s.store s.nextId { id := s.nextId, trackId := trackId, slotIndex := slotIndex, clip := clip, state := ClipState.triggered, launchTime := getNextQuantizedBeat (getPos s) qr s.bpm, stopTime := Option.none, loopCount := 0, sources := [], midiEvents := [] }) } trackId s.nextId ?_ ?_ (inv_addScheduled s _ h)
      · dsimp only
        exact mem_keys_storeSet_self _ _ _
      · intro sc2 hsc2
        dsimp only at hsc2
        rw [storeGet_fresh_of_inv s _ h] at hsc2
        rw [← Option.some.inj hsc2]
    split
    · exact inv_startClip _ _ hbody
    · exact hbody
  | some pid =>
    dsimp only
    have hbody : Inv { s with nextId := s.nextId + 1, store := (storeUpdate (storeSet s.store s.nextId (if clip.base.legato = some LegatoMode.legato then { id := s.nextId, trackId := trackId, slotIndex := slotIndex, clip := clip, state := ClipState.triggered, launchTime := getPos s, stopTime := Option.none, loopCount := 0, sources := [], midiEvents := [] } else { id := s.nextId, trackId := trackId, slotIndex := slotIndex, clip := clip, state := ClipState.triggered, launchTime := getNextQuantizedBeat (getPos s) qr s.bpm, stopTime := Option.none, loopCount := 0, sources := [], midiEvents := [] })) pid (fun c => { c with stopTime := some (getNextQuantizedBeat (getPos s) qr s.bpm) })), stopping := mapSet s.stopping trackId pid, triggered := mapSet s.triggered trackId s.nextId } := by
      refine inv_addTriggered { s with nextId := s.nextId + 1, store := (storeUpdate (storeSet s.store s.nextId (if clip.base.legato = some LegatoMode.legato then { id := s.nextId, trackId := trackId, slotIndex := slotIndex, clip := clip, state := ClipState.triggered, launchTime := getPos s, stopTime := Option.none, loopCount := 0, sources := [], midiEvents := [] } else { id := s.nextId, trackId := trackId, slotIndex := slotIndex, clip := clip, state := ClipState.triggered, launchTime := getNextQuantizedBeat (getPos s) qr s.bpm, stopTime := Option.none, loopCount := 0, sources := [], midiEvents := [] })) pid (fun c => { c with stopTime := some (getNextQuantizedBeat (getPos s) qr s.bpm) })), stopping := mapSet s.stopping trackId pid } trackId s.nextId ?_ ?_ ?_
      · dsimp only
        rw [keys_storeUpdate]
        exact mem_keys_storeSet_self _ _ _
      · intro sc2 hsc2
        dsimp only at hsc2
        rw [storeGet_storeUpdate] at hsc2
        by_cases hnp : s.nextId = pid
        · rw [if_pos hnp, storeGet_fresh_of_inv s _ h, Option.map_some'] at hsc2
          rw [← Option.some.inj hsc2]
          split <;> rfl
        · rw [if_neg hnp, storeGet_fresh_of_inv s _ h] at hsc2
          rw [← Option.some.inj hsc2]
          split <;> rfl
      · exact inv_markStop { s with nextId := s.nextId + 1, store := (storeSet s.store s.nextId (if clip.base.legato = some LegatoMode.legato then { id := s.nextId, trackId := trackId, slotIndex := slotIndex, clip := clip, state := ClipState.triggered, launchTime := getPos s, stopTime := Option.none, loopCount := 0, sources := [], midiEvents := [] } else { id := s.nextId, trackId := trackId, slotIndex := slotIndex, clip := clip, state := ClipState.triggered, launchTime := getNextQuantizedBeat (getPos s) qr s.bpm, stopTime := Option.none, loopCount := 0, sources := [], midiEvents := [] })) } trackId pid (fun c => { c with stopTime := some (getNextQuantizedBeat (getPos s) qr s.bpm) }) (fun c => rfl) hp (inv_addScheduled s _ h)
    split
    · exact inv_startClip _ _ hbody
    · exact hbody

theorem launchClip_scalars (s : LauncherState) (trackId : String) (slotIndex : ℕ)
    (clip : Clip) (q : LaunchQuantization) :
    (launchClip s trackId slotIndex clip q).position = s.position ∧
    (launchClip s trackId slotIndex clip q).startTime = s.startTime ∧
    (launchClip s trackId slotIndex clip q).ctxTime = s.ctxTime ∧
    (launchClip s trackId slotIndex clip q).bpm = s.bpm ∧
    (launchClip s trackId slotIndex clip q).globalQuantization = s.globalQuantization ∧
    (launchClip s trackId slotIndex clip q).nextId = s.nextId + 1 := by
  unfold launchClip
  dsimp only
  generalize (if q = LaunchQuantization.global then s.globalQuantization else q) = qr
  cases hp : mapGet s.playing trackId <;> dsimp only <;> split
  all_goals first
    | exact ⟨rfl, rfl, rfl, rfl, rfl, rfl⟩
    | exact ⟨(startClip_scalars _ _).2.2.2.1, (startClip_scalars _ _).2.2.2.2.1,
        (startClip_scalars _ _).2.2.2.2.2.1, (startClip_scalars _ _).2.2.2.2.2.2.1,
        (startClip_scalars _ _).2.2.2.2.2.2.2.1, (startClip_scalars _ _).2.2.1⟩

theorem launchClip_getPos (s : LauncherState) (trackId : String) (slotIndex : ℕ)
    (clip : Clip) (q : LaunchQuantization) :
    getPos (launchClip s trackId slotIndex clip q) = getPos s := by
  have hs := launchClip_scalars s trackId slotIndex clip q
  unfold getPos
  rw [hs.1, hs.2.1, hs.2.2.1, hs.2.2.2.1]

theorem launchClip_oldLaunchTime (s : LauncherState) (trackId : String) (slotIndex : ℕ)
    (clip : Clip) (q : LaunchQuantization) (j : ℕ) (hj : j ≠ s.nextId) :
    (storeGet (launchClip s trackId slotIndex clip q).store j).map ScheduledClip.launchTime =
      (storeGet s.store j).map ScheduledClip.launchTime := by
  unfold launchClip
  dsimp only
  generalize (if q = LaunchQuantization.global then s.globalQuantization else q) = qr
  cases hp : mapGet s.playing trackId with
  | none =>
    dsimp only
    split
    · rw [startClip_store_ne _ _ j hj]
      dsimp only
      rw [storeGet_storeSet_ne _ _ _ j hj]
    · dsimp only
      rw [storeGet_storeSet_ne _ _ _ j hj]
  | some pid =>
    dsimp only
    split
    · rw [startClip_store_ne _ _ j hj]
      dsimp only
      rw [storeGet_storeUpdate]
      by_cases hjp : j = pid
      · rw [if_pos hjp, storeGet_storeSet_ne _ _ _ j hj]
        cases storeGet s.store j <;> rfl
      · rw [if_neg hjp, storeGet_storeSet_ne _ _ _ j hj]
    · dsimp only
      rw [storeGet_storeUpdate]
      by_cases hjp : j = pid
      · rw [if_pos hjp, storeGet_storeSet_ne _ _ _ j hj]
        cases storeGet s.store j <;> rfl
      · rw [if_neg hjp, storeGet_storeSet_ne _ _ _ j hj]

theorem startClip_launchTime (s : LauncherState) (cid : ℕ) :
    (storeGet (startClip s cid).store cid).map ScheduledClip.launchTime =
      (storeGet s.store cid).map ScheduledClip.launchTime := by
  cases hx : storeGet s.store cid with
  | none =>
    have hs : startClip s cid = s := by
      unfold startClip
      rw [hx]
    rw [hs, hx]
  | some sc =>
    have hk : cid ∈ (startClip s cid).store.map Prod.fst := by
      rw [startClip_keys]
      exact storeGet_some_mem_keys s.store cid sc hx
    obtain ⟨sc2, hsc2⟩ := mem_keys_storeGet_isSome _ cid hk
    obtain ⟨sc0, hs0, _, _, e3, _⟩ := startClip_storePres s cid cid sc2 hsc2
    rw [hx] at hs0
    rw [hsc2, Option.map_some', Option.map_some', e3, Option.some.inj hs0]

theorem launchClip_newClip (s : LauncherState) (trackId : String) (slotIndex : ℕ)
    (clip : Clip) (q : LaunchQuantization)
    (hleg : clip.base.legato ≠ some LegatoMode.legato) (h : Inv s) :
    (storeGet (launchClip s trackId slotIndex clip q).store s.nextId).map
        ScheduledClip.launchTime =
      some (getNextQuantizedBeat (getPos s)
        (if q = LaunchQuantization.global then s.globalQuantization else q) s.bpm) := by
  unfold launchClip
  dsimp only
  generalize (if q = LaunchQuantization.global then s.globalQuantization else q) = qr
  cases hp : mapGet s.playing trackId with
  | none =>
    dsimp only
    split
    · rw [startClip_launchTime]
      dsimp only
      rw [storeGet_fresh_of_inv s _ h, Option.map_some']
    · dsimp only
      rw [storeGet_fresh_of_inv s _ h, Option.map_some']
  | some pid =>
    dsimp only
    rw [if_neg hleg]
    split
    · rw [startClip_launchTime]
      dsimp only
      rw [storeGet_storeUpdate]
      by_cases hnp : s.nextId = pid
      · rw [if_pos hnp, storeGet_fresh_of_inv s _ h, Option.map_some', Option.map_some']
      · rw [if_neg hnp, storeGet_fresh_of_inv s _ h, Option.map_some']
    · dsimp only
      rw [storeGet_storeUpdate]
      by_cases hnp : s.nextId = pid
      · rw [if_pos hnp, storeGet_fresh_of_inv s _ h, Option.map_some', Option.map_some']
      · rw [if_neg hnp, storeGet_fresh_of_inv s _ h, Option.map_some']

theorem inv_initialState (bpm : ℚ) (gq : LaunchQuantization) (rng : ℕ → ℚ) :
    Inv (initialState bpm gq rng) := by
  constructor
  · intro p hp
    exact absurd hp (List.not_mem_nil p)
  · intro p hp
    exact absurd hp (List.not_mem_nil p)
  · intro p hp
    exact absurd hp (List.not_mem_nil p)
  · intro p hp
    exact absurd hp (List.not_mem_nil p)
  · intro p hp
    exact absurd hp (List.not_mem_nil p)
  · exact List.nodup_nil

theorem inv_advanceTime (s : LauncherState) (t : ℚ) (h : Inv s) : Inv (advanceTime s t) :=
  ⟨h.idsLt, h.playingRef, h.triggeredRef, h.stoppingRef, h.triggeredTrack, h.playingNodup⟩

theorem inv_startTransport (s : LauncherState) (pos : Beats) (h : Inv s) :
    Inv (startTransport s pos) :=
  ⟨h.idsLt, h.playingRef, h.triggeredRef, h.stoppingRef, h.triggeredTrack, h.playingNodup⟩

theorem inv_loadSample (s : LauncherState) (sid : String) (h : Inv s) :
    Inv (loadSample s sid) :=
  ⟨h.idsLt, h.playingRef, h.triggeredRef, h.stoppingRef, h.triggeredTrack, h.playingNodup⟩

theorem inv_launchScene (s : LauncherState) (clips : List (String × ℕ × Clip))
    (q : LaunchQuantization) (h : Inv s) : Inv (launchScene s clips q) := by
  unfold launchScene
  refine foldl_inv Inv _ clips ?_ s h
  intro x hx st hst
  exact inv_launchClip st x.1 x.2.1 x.2.2 q hst

theorem reach_inv (s : LauncherState) (h : Reach s) : Inv s := by
  induction h with
  | init bpm gq rng => exact inv_initialState bpm gq rng
  | launch s trackId slotIndex clip q _ ih => exact inv_launchClip s trackId slotIndex clip q ih
  | stop s trackId q _ ih => exact (stopClip_eff s trackId q).2.2.2.2.2.2 ih
  | scene s clips q _ ih => exact inv_launchScene s clips q ih
  | step s _ ih => exact inv_tick s ih
  | advance s t _ ih => exact inv_advanceTime s t ih
  | startT s pos _ ih => exact inv_startTransport s pos ih
  | load s sid _ ih => exact inv_loadSample s sid ih

theorem launchScene_oldLaunchTime (clips : List (String × ℕ × Clip)) (q : LaunchQuantization) :
    ∀ (s : LauncherState) (j : ℕ), j < s.nextId →
      (storeGet (launchScene s clips q).store j).map ScheduledClip.launchTime =
        (storeGet s.store j).map ScheduledClip.launchTime := by
  induction clips with
  | nil =>
    intro s j hj
    rfl
  | cons e rest ih =>
    intro s j hj
    rw [show launchScene s (e :: rest) q =
      launchScene (launchClip s e.1 e.2.1 e.2.2 q) rest q from rfl]
    have h1 := ih (launchClip s e.1 e.2.1 e.2.2 q) j
      (by rw [(launchClip_scalars s e.1 e.2.1 e.2.2 q).2.2.2.2.2]; omega)
    rw [h1, launchClip_oldLaunchTime s e.1 e.2.1 e.2.2 q j (Nat.ne_of_lt hj)]

theorem launchScene_getPos (clips : List (String × ℕ × Clip)) (q : LaunchQuantization) :
    ∀ s : LauncherState, getPos (launchScene s clips q) = getPos s ∧
      (launchScene s clips q).bpm = s.bpm ∧
      (launchScene s clips q).nextId = s.nextId + clips.length := by
  induction clips with
  | nil =>
    intro s
    exact ⟨rfl, rfl, rfl⟩
  | cons e rest ih =>
    intro s
    rw [show launchScene s (e :: rest) q =
      launchScene (launchClip s e.1 e.2.1 e.2.2 q) rest q from rfl]
    have h1 := ih (launchClip s e.1 e.2.1 e.2.2 q)
    have h2 := launchClip_scalars s e.1 e.2.1 e.2.2 q
    refine ⟨h1.1.trans (launchClip_getPos s e.1 e.2.1 e.2.2 q), h1.2.1.trans h2.2.2.2.1, ?_⟩
    rw [h1.2.2, h2.2.2.2.2.2]
    simp only [List.length_cons]
    omega

theorem startClip_storeGet (s : LauncherState) (cid : ℕ) (sc : ScheduledClip)
    (hx : storeGet s.store cid = some sc) :
    ∃ sc2, storeGet (startClip s cid).store cid = some sc2 ∧
      sc2.trackId = sc.trackId ∧ sc2.launchTime = sc.launchTime := by
  have hk : cid ∈ (startClip s cid).store.map Prod.fst := by
    rw [startClip_keys]
    exact storeGet_some_mem_keys s.store cid sc hx
  obtain ⟨sc2, hsc2⟩ := mem_keys_storeGet_isSome _ cid hk
  obtain ⟨sc0, hs0, e1, _, e3, _⟩ := startClip_storePres s cid cid sc2 hsc2
  rw [hx] at hs0
  obtain rfl : sc = sc0 := Option.some.inj hs0
  exact ⟨sc2, hsc2, e1, e3⟩

theorem count_le_one_of_nodup_keys (m : List (String × ℕ)) (track : String)
    (h : (m.map Prod.fst).Nodup) : (m.filter (fun p => p.1 = track)).length ≤ 1 := by
  induction m with
  | nil => simp
  | cons p m ih =>
    simp only [List.map_cons, List.nodup_cons] at h
    by_cases hp : p.1 = track
    · have hnil : m.filter (fun q => decide (q.1 = track)) = [] := by
        rw [List.filter_eq_nil_iff]
        intro q hq hqd
        exact h.1 (List.mem_map.mpr ⟨q, hq, (of_decide_eq_true hqd).trans hp.symm⟩)
      rw [List.filter_cons, if_pos (decide_eq_true hp), hnil]
      simp
    · rw [List.filter_cons, if_neg (by simp [hp])]
      exact ih h.2

/-- C1 (amended): the playing role is exclusive per track — in every state
reachable through the launcher API, at most one entry of the playing map
belongs to a track, so at most one scheduled clip holds the playing role
for it; the original claim that at most one stored ScheduledClip has
state playing per track is refuted by the legato trace. -/
theorem c1_playing_role_exclusive (s : LauncherState) (track : String) (h : Reach s) :
    playingRoleCount s track ≤ 1 :=
  count_le_one_of_nodup_keys s.playing track (reach_inv s h).playingNodup

/-- Witness: the playing-role bound instantiated on the legato trace after
the tick at beat two. -/
theorem c1_playing_role_exclusive_witness : playingRoleCount exS5 "t" ≤ 1 :=
  c1_playing_role_exclusive exS5 "t"
    (Reach.step _ (Reach.advance _ _ (Reach.launch _ _ _ _ _
      (Reach.advance _ _ (Reach.launch _ _ _ _ _
        (Reach.init 120 LaunchQuantization.oneBar demoRng))))))

/-- C1 counterexample: after launching clip A, launching legato clip B on
the same track and running one ticker callback at beat two, the reachable
state exS5 holds two referenced ScheduledClips of track t whose state
field is playing — the clip count bound of the claim fails. -/
theorem c1_counterexample : Reach exS5 ∧ playingStateCount exS5 "t" = 2 :=
  ⟨Reach.step _ (Reach.advance _ _ (Reach.launch _ _ _ _ _
      (Reach.advance _ _ (Reach.launch _ _ _ _ _
        (Reach.init 120 LaunchQuantization.oneBar demoRng))))),
   by with_unfolding_all rfl⟩

/-- C2 (amended): launching clip B with legato mode while a clip is
playing on the track sets B's launch beat to the current transport beat
exactly, and the playing clip A is marked into the stopping role with its
stop beat equal to the resolved quantization boundary (not the current
beat). -/
theorem c2_legato_launch (s : LauncherState) (track : String) (slot : ℕ) (clip : Clip)
    (q : LaunchQuantization) (pid : ℕ) (h : Reach s)
    (hp : mapGet s.playing track = some pid)
    (hleg : clip.base.legato = some LegatoMode.legato) :
    (∃ scB, storeGet (launchClip s track slot clip q).store s.nextId = some scB ∧
      scB.launchTime = getPos s ∧ scB.trackId = track) ∧
    (∃ scA, storeGet (launchClip s track slot clip q).store pid = some scA ∧
      scA.stopTime = some (getNextQuantizedBeat (getPos s)
        (if q = LaunchQuantization.global then s.globalQuantization else q) s.bpm)) ∧
    mapGet (launchClip s track slot clip q).stopping track = some pid := by
  have hinv := reach_inv s h
  have hpidlt : pid < s.nextId := by
    rcases List.mem_map.mp (hinv.playingRef (track, pid) (mapGet_some_mem _ _ _ hp))
      with ⟨p2, hp2, he⟩
    have he2 : p2.1 = pid := he
    rw [← he2]
    exact hinv.idsLt p2 hp2
  have hpe : pid ≠ s.nextId := Nat.ne_of_lt hpidlt
  have hnp : ¬ s.nextId = pid := fun hh => hpe hh.symm
  obtain ⟨scA0, hA0⟩ := mem_keys_storeGet_isSome s.store pid
    (hinv.playingRef (track, pid) (mapGet_some_mem _ _ _ hp))
  unfold launchClip
  dsimp only
  generalize (if q = LaunchQuantization.global then s.globalQuantization else q) = qr
  simp only [hp]
  rw [if_pos hleg]
  split
  · refine ⟨?_, ?_, ?_⟩
    · have hx : storeGet ({ s with nextId := s.nextId + 1, store := (storeUpdate (storeSet s.store s.nextId { id := s.nextId, trackId := track, slotIndex := slot, clip := clip, state := ClipState.triggered, launchTime := getPos s, stopTime := Option.none, loopCount := 0, sources := [], midiEvents := [] }) pid (fun c => { c with stopTime := some (getNextQuantizedBeat (getPos s) qr s.bpm) })), stopping := mapSet s.stopping track pid, triggered := mapSet s.triggered track s.nextId } : LauncherState).store s.nextId
          = some { id := s.nextId, trackId := track, slotIndex := slot, clip := clip, state := ClipState.triggered, launchTime := getPos s, stopTime := Option.none, loopCount := 0, sources := [], midiEvents := [] } := by
        dsimp only
        rw [storeGet_storeUpdate, if_neg hnp]
        exact storeGet_fresh_of_inv s _ hinv
      obtain ⟨scB, hscB, e1, e3⟩ := startClip_storeGet _ s.nextId _ hx
      exact ⟨scB, hscB, e3, e1⟩
    · rw [startClip_store_ne _ _ pid hpe]
      dsimp only
      rw [storeGet_storeUpdate, if_pos rfl, storeGet_storeSet_ne _ _ _ pid hpe, hA0,
        Option.map_some']
      exact ⟨_, rfl, rfl⟩
    · rw [(startClip_scalars _ _).2.1]
      exact mapGet_mapSet_self _ _ _
  · refine ⟨?_, ?_, ?_⟩
    · dsimp only
      rw [storeGet_storeUpdate, if_neg hnp, storeGet_fresh_of_inv s _ hinv]
      exact ⟨_, rfl, rfl, rfl⟩
    · dsimp only
      rw [storeGet_storeUpdate, if_pos rfl, storeGet_storeSet_ne _ _ _ pid hpe, hA0,
        Option.map_some']
      exact ⟨_, rfl, rfl⟩
    · exact mapGet_mapSet_self _ _ _

/-- Witness: the legato launch of clip B on the demo trace at beat one. -/
theorem c2_legato_launch_witness :
    (∃ scB, storeGet (launchClip exS2 "t" 1 clipB LaunchQuantization.global).store exS2.nextId
        = some scB ∧ scB.launchTime = getPos exS2 ∧ scB.trackId = "t") ∧
    (∃ scA, storeGet (launchClip exS2 "t" 1 clipB LaunchQuantization.global).store 0
        = some scA ∧ scA.stopTime = some (getNextQuantizedBeat (getPos exS2)
          (if LaunchQuantization.global = LaunchQuantization.global then
            exS2.globalQuantization else LaunchQuantization.global) exS2.bpm)) ∧
    mapGet (launchClip exS2 "t" 1 clipB LaunchQuantization.global).stopping "t" = some 0 :=
  c2_legato_launch exS2 "t" 1 clipB LaunchQuantization.global 0
    (Reach.advance _ _ (Reach.launch _ _ _ _ _
      (Reach.init 120 LaunchQuantization.oneBar demoRng)))
    (by with_unfolding_all rfl) rfl

/-- C2 counterexample: on the demo trace at beat one, the legato launch of
clip B gives B the current beat as launch beat, but the superseded clip A
is scheduled to stop at the one-bar boundary beat four, not at the
current beat, and its state field remains playing. -/
theorem c2_counterexample :
    Reach exS2 ∧ getPos exS2 = 1 ∧
    (storeGet exS3.store 1).map ScheduledClip.launchTime = some 1 ∧
    (storeGet exS3.store 0).map ScheduledClip.stopTime = some (some 4) ∧
    (storeGet exS3.store 0).map ScheduledClip.state = some ClipState.playing ∧
    ((4 : ℚ) ≠ 1) :=
  ⟨Reach.advance _ _ (Reach.launch _ _ _ _ _
      (Reach.init 120 LaunchQuantization.oneBar demoRng)),
   by with_unfolding_all rfl, by with_unfolding_all rfl, by with_unfolding_all rfl,
   by with_unfolding_all rfl, by norm_num⟩

/-- C3 (amended): a scene launch shares one current-beat snapshot, so with
one-bar quantization every clip of the scene that does not take the
legato override is scheduled at the same boundary beat; a legato clip on
an already-playing track is scheduled at the current beat instead, which
refutes the unconditional claim. -/
theorem c3_scene_boundary (s : LauncherState) (clips : List (String × ℕ × Clip))
    (h : Reach s)
    (hleg : ∀ e ∈ clips, e.2.2.base.legato ≠ some LegatoMode.legato) :
    ∀ i < clips.length,
      (storeGet (launchScene s clips LaunchQuantization.oneBar).store (s.nextId + i)).map
          ScheduledClip.launchTime =
        some (getNextQuantizedBeat (getPos s) LaunchQuantization.oneBar s.bpm) := by
  induction clips generalizing s with
  | nil =>
    intro i hi
    exact absurd hi (Nat.not_lt_zero i)
  | cons e rest ih =>
    intro i hi
    rw [show launchScene s (e :: rest) LaunchQuantization.oneBar =
      launchScene (launchClip s e.1 e.2.1 e.2.2 LaunchQuantization.oneBar) rest
        LaunchQuantization.oneBar from rfl]
    have hsc := launchClip_scalars s e.1 e.2.1 e.2.2 LaunchQuantization.oneBar
    cases i with
    | zero =>
      rw [Nat.add_zero]
      rw [launchScene_oldLaunchTime rest LaunchQuantization.oneBar
        (launchClip s e.1 e.2.1 e.2.2 LaunchQuantization.oneBar) s.nextId
        (by rw [hsc.2.2.2.2.2]; omega)]
      rw [launchClip_newClip s e.1 e.2.1 e.2.2 LaunchQuantization.oneBar
        (hleg e (List.mem_cons_self e rest)) (reach_inv s h)]
      rw [if_neg (fun hh => LaunchQuantization.noConfusion hh)]
    | succ i2 =>
      have hR1 : Reach (launchClip s e.1 e.2.1 e.2.2 LaunchQuantization.oneBar) :=
        Reach.launch s e.1 e.2.1 e.2.2 LaunchQuantization.oneBar h
      have hto := ih (launchClip s e.1 e.2.1 e.2.2 LaunchQuantization.oneBar) hR1
        (fun e2 he2 => hleg e2 (List.mem_cons_of_mem e he2)) i2
        (by simp only [List.length_cons] at hi; omega)
      rw [launchClip_getPos s e.1 e.2.1 e.2.2 LaunchQuantization.oneBar, hsc.2.2.2.1,
        hsc.2.2.2.2.2] at hto
      rw [show s.nextId + (i2 + 1) = s.nextId + 1 + i2 from by omega]
      exact hto

/-- Witness: a one-clip scene without legato on the demo trace; the new
clip is scheduled exactly at the one-bar boundary. -/
theorem c3_scene_boundary_witness :
    (storeGet (launchScene exS2 [("u", 0, clipC)] LaunchQuantization.oneBar).store
        (exS2.nextId + 0)).map ScheduledClip.launchTime =
      some (getNextQuantizedBeat (getPos exS2) LaunchQuantization.oneBar exS2.bpm) := by
  refine c3_scene_boundary exS2 [("u", 0, clipC)]
    (Reach.advance _ _ (Reach.launch _ _ _ _ _
      (Reach.init 120 LaunchQuantization.oneBar demoRng))) ?_ 0 (by norm_num)
  intro e he
  rw [List.mem_singleton] at he
  subst he
  intro hc
  exact Option.noConfusion hc

/-- C3 counterexample: the scene pairing legato clip B on the playing
track with plain clip C, launched at beat one with one-bar quantization,
schedules B at beat one and C at beat four — the launch beats across the
scene are not identical. -/
theorem c3_counterexample :
    Reach exS2 ∧
    (storeGet exScene.store 1).map ScheduledClip.launchTime = some 1 ∧
    (storeGet exScene.store 2).map ScheduledClip.launchTime = some 4 ∧
    ((1 : ℚ) ≠ 4) :=
  ⟨Reach.advance _ _ (Reach.launch _ _ _ _ _
      (Reach.init 120 LaunchQuantization.oneBar demoRng)),
   by with_unfolding_all rfl, by with_unfolding_all rfl, by norm_num⟩

/-- C4: stopClip removes the track's triggered entry immediately for every
quantization argument, and however many ticker callbacks follow, no
further clip-started event of that track is emitted. -/
theorem c4_stop_cancels_trigger (s : LauncherState) (track : String)
    (q : LaunchQuantization) (h : Reach s) :
    mapGet (stopClip s track q).triggered track = Option.none ∧
    ∀ n, startedCount (tickN n (stopClip s track q)) track =
      startedCount (stopClip s track q) track := by
  have hinv := reach_inv s h
  have hinv2 : Inv (stopClip s track q) := (stopClip_eff s track q).2.2.2.2.2.2 hinv
  have ht : mapGet (stopClip s track q).triggered track = Option.none := by
    rw [(stopClip_eff s track q).2.2.2.2.2.1]
    exact mapGet_mapDelete_self _ _
  exact ⟨ht, fun n => (tickN_no_start n _ track hinv2 ht).2.2⟩

/-- Witness: cancelling the pending clip C trigger with a one-bar
quantized stop; three following ticks start nothing on the track. -/
theorem c4_stop_cancels_trigger_witness :
    mapGet (stopClip exT "u" LaunchQuantization.oneBar).triggered "u" = Option.none ∧
    startedCount (tickN 3 (stopClip exT "u" LaunchQuantization.oneBar)) "u" =
      startedCount (stopClip exT "u" LaunchQuantization.oneBar) "u" :=
  ⟨(c4_stop_cancels_trigger exT "u" LaunchQuantization.oneBar
      (Reach.launch _ _ _ _ _ (Reach.advance _ _ (Reach.launch _ _ _ _ _
        (Reach.init 120 LaunchQuantization.oneBar demoRng))))).1,
   (c4_stop_cancels_trigger exT "u" LaunchQuantization.oneBar
      (Reach.launch _ _ _ _ _ (Reach.advance _ _ (Reach.launch _ _ _ _ _
        (Reach.init 120 LaunchQuantization.oneBar demoRng))))).2 3⟩

end ZDaw


